import Mathlib

/-!
# Verification of the goliac reconciliation engine

Shallow embedding of `internal/engine/goliac_reconciliator.go` and of the
apply scheduler of `internal/goliac_server.go`, together with proofs about
the claims of the specification.

Go maps are embedded as association lists (`List (key × value)`); iteration
follows list order (Go's map iteration order is unspecified, the spec says
the key order is "unspecified but deterministic-per-run").  Helper code of
the repository that is not part of the two given source files
(`entity.StringArrayEquivalent`, `CompareEntities`, the mutable mirror
`MutableGoliacRemoteImpl`, `slug.Make`, `regexp`) is modelled from the
specification; each such definition is marked `Modelled from the spec`.
-/

namespace Goliac

/-- Association list lookup (embedding of a Go map read `m[k]`). -/
def alookup {α β : Type} [DecidableEq α] (k : α) : List (α × β) → Option β
  | [] => none
  | p :: r => if p.1 = k then some p.2 else alookup k r

/-- Keys of an association list. -/
def akeys {α β : Type} (l : List (α × β)) : List α := l.map (·.1)

/-- Update the value stored at a key (no-op when the key is absent). -/
def aupdate {α β : Type} [DecidableEq α] (k : α) (f : β → β) (l : List (α × β)) :
    List (α × β) :=
  l.map (fun p => if p.1 = k then (p.1, f p.2) else p)

/-- Go map assignment `m[k] = v`: replace in place, or append a new binding. -/
def ainsert {α β : Type} [DecidableEq α] (k : α) (v : β) (l : List (α × β)) :
    List (α × β) :=
  if (alookup k l).isSome then aupdate k (fun _ => v) l else l ++ [(k, v)]

/-- Go map deletion `delete(m, k)`. -/
def aerase {α β : Type} [DecidableEq α] (k : α) (l : List (α × β)) : List (α × β) :=
  l.filter (fun p => p.1 ≠ k)

theorem akeys_aupdate {α β : Type} [DecidableEq α] (k : α) (f : β → β)
    (l : List (α × β)) : akeys (aupdate k f l) = akeys l := by
  induction l with
  | nil => rfl
  | cons p r ih =>
    simp only [aupdate, akeys, List.map] at *
    by_cases h : p.1 = k <;> simp [h, ih]

theorem mem_akeys_ainsert {α β : Type} [DecidableEq α] (k k' : α) (v : β)
    (l : List (α × β)) (h : k' ∈ akeys l) : k' ∈ akeys (ainsert k v l) := by
  unfold ainsert
  by_cases hs : (alookup k l).isSome
  · simpa [hs, akeys_aupdate] using h
  · rw [if_neg hs]
    simp only [akeys, List.map_append]
    exact List.mem_append_left _ h

/-- `Modelled from the spec:` `entity.StringArrayEquivalent` (the `entity`
package is not among the given sources).  Per the spec the equality is
multiset equality, and the two returned lists are the remote-only and the
local-only entries: `StringArrayEquivalent(local, remote)` returns
`(equivalent, toRemove, toAdd)` with `toRemove = remote \ local` and
`toAdd = local \ remote`. -/
def StringArrayEquivalent (a b : List String) : Bool × List String × List String :=
  (a.isPerm b, b.filter (fun x => !(a.contains x)), a.filter (fun x => !(b.contains x)))

theorem contains_eq_false_iff (l : List String) (x : String) :
    l.contains x = false ↔ x ∉ l := by
  rw [← Bool.not_eq_true, not_iff_not]; exact List.elem_iff

theorem mem_SAE_toRemove_iff {a b : List String} {x : String} :
    x ∈ (StringArrayEquivalent a b).2.1 ↔ x ∈ b ∧ x ∉ a := by
  simp only [StringArrayEquivalent, List.mem_filter, Bool.not_eq_true',
    contains_eq_false_iff]

theorem mem_SAE_toAdd_iff {a b : List String} {x : String} :
    x ∈ (StringArrayEquivalent a b).2.2 ↔ x ∈ a ∧ x ∉ b := by
  simp only [StringArrayEquivalent, List.mem_filter, Bool.not_eq_true',
    contains_eq_false_iff]

theorem StringArrayEquivalent_false_of_mem_toRemove {a b : List String} {x : String}
    (h : x ∈ (StringArrayEquivalent a b).2.1) : (StringArrayEquivalent a b).1 = false := by
  rw [mem_SAE_toRemove_iff] at h
  show (a.isPerm b) = false
  by_contra hperm
  rw [Bool.not_eq_false, List.isPerm_iff] at hperm
  exact h.2 (hperm.mem_iff.mpr h.1)

theorem StringArrayEquivalent_false_of_mem_toAdd {a b : List String} {x : String}
    (h : x ∈ (StringArrayEquivalent a b).2.2) : (StringArrayEquivalent a b).1 = false := by
  rw [mem_SAE_toAdd_iff] at h
  show (a.isPerm b) = false
  by_contra hperm
  rw [Bool.not_eq_false, List.isPerm_iff] at hperm
  exact h.2 (hperm.mem_iff.mp h.1)

theorem toAdd_toRemove_disjoint {a b : List String} {x : String}
    (h : x ∈ (StringArrayEquivalent a b).2.2) : x ∉ (StringArrayEquivalent a b).2.1 := by
  rw [mem_SAE_toAdd_iff] at h
  rw [mem_SAE_toRemove_iff]
  intro hcon
  exact hcon.2 h.1

/-- `Modelled from the spec:` `slug.Make` of the `gosimple/slug` library
("deterministic, URL-safe lowercasing of a team name"): lower-case every
character and replace spaces by hyphens. -/
def slugMake (s : String) : String :=
  String.mk (s.data.map (fun c => if c = ' ' then '-' else c.toLower))

/-- `Modelled from the spec:` Go's `regexp.Regexp.Match` is unanchored: a
compiled pattern (abstracted as its anchored core matcher `m` on character
lists) matches a string when some contiguous substring satisfies `m`. -/
def goMatch (m : List Char → Bool) (s : String) : Bool :=
  (s.data.tails.flatMap List.inits).any m

/-! ## Data model -/

/-- Declared user (`entity.User`): `lUser.Spec.GithubID`. -/
structure User where
  GithubID : String
deriving DecidableEq

/-- Declared team (`entity.Team`): member names and owner names. -/
structure Team where
  Members : List String
  Owners : List String
deriving DecidableEq

/-- Declared repository (`entity.Repository`). -/
structure Repository where
  IsPublic : Bool
  Archived : Bool
  Readers : List String
  Writers : List String
  ExternalUserReaders : List String
  ExternalUserWriters : List String
  Owner : Option String
deriving DecidableEq

/-- `Modelled from the spec:` `entity.RuleSetParameters` (opaque parameter
record of one rule); only its decidable equality is relevant here. -/
def RuleSetParameters : Type := String

instance : DecidableEq RuleSetParameters := fun a b =>
  (inferInstance : DecidableEq String) a b

/-- `Modelled from the spec:` `entity.CompareRulesetParameters` compares the
parameters of one rule type ("per-key parameter equality"). -/
def CompareRulesetParameters (_ruletype : String) (a b : RuleSetParameters) : Bool :=
  decide (a = b)

/-- One bypass-app entry of a declared ruleset (`AppName → Mode`). -/
structure BypassApp where
  AppName : String
  Mode : String
deriving DecidableEq

/-- One rule of a declared ruleset (`Ruletype → Parameters`). -/
structure RSRule where
  Ruletype : String
  Parameters : RuleSetParameters
deriving DecidableEq

/-- Declared ruleset (`entity.RuleSet`): name, enforcement, bypass apps,
include/exclude patterns and rules. -/
structure LocalRuleset where
  Name : String
  Enforcement : String
  BypassApps : List BypassApp
  OnInclude : List String
  OnExclude : List String
  Rules : List RSRule
deriving DecidableEq

/-- The declared state provider `GoliacLocal` (read-only maps). -/
structure GoliacLocal where
  users : List (String × User)
  externalUsers : List (String × User)
  teams : List (String × Team)
  repositories : List (String × Repository)
  rulesets : List (String × LocalRuleset)
deriving DecidableEq

/-- Live team (`engine.GithubTeam`). -/
structure GithubTeam where
  Name : String
  Slug : String
  Members : List String
deriving DecidableEq

/-- Live repository as stored by the remote: private/archived flags and the
per-external-user permission map (githubid → permission). -/
structure GithubRepo where
  IsPrivate : Bool
  IsArchived : Bool
  ExternalUsers : List (String × String)
deriving DecidableEq

/-- Live/declared comparable ruleset (`engine.GithubRuleSet`). -/
structure GithubRuleSet where
  Name : String
  Id : Nat
  Enforcement : String
  BypassApps : List (String × String)
  OnInclude : List String
  OnExclude : List String
  Rules : List (String × RuleSetParameters)
  Repositories : List String
deriving DecidableEq

/-- The live state: users (external ids), teams keyed by slug, repositories
keyed by name, team→repo→permission, rulesets keyed by name, and the
enterprise capability flag.  `NewMutableGoliacRemoteImpl` wraps a read-only
snapshot of exactly this shape, so the same structure serves as the mirror
(`Modelled from the spec:` §4.2, `MutableGoliacRemoteImpl` is not among the
given sources). -/
structure GoliacRemote where
  users : List String
  teams : List (String × GithubTeam)
  repositories : List (String × GithubRepo)
  teamRepos : List (String × List (String × String))
  rulesets : List (String × GithubRuleSet)
  enterprise : Bool
deriving DecidableEq

/-- Comparable projection of a repository (`engine.GithubRepoComparable`). -/
structure GithubRepoComparable where
  IsPublic : Bool
  IsArchived : Bool
  Writers : List String
  Readers : List String
  ExternalUserReaders : List String
  ExternalUserWriters : List String
deriving DecidableEq

/-! ## Operations and the mediator -/

/-- The mutation catalogue of the mediator / Executor interface. -/
inductive Op where
  | addUserToOrg (ghuserid : String)
  | removeUserFromOrg (ghuserid : String)
  | createTeam (teamname description : String) (members : List String)
  | deleteTeam (teamslug : String)
  | updateTeamAddMember (teamslug username role : String)
  | updateTeamRemoveMember (teamslug username : String)
  | createRepository (reponame description : String)
      (writers readers : List String) (pub : Bool)
  | deleteRepository (reponame : String)
  | updateRepositoryUpdatePrivate (reponame : String) (priv : Bool)
  | updateRepositoryUpdateArchived (reponame : String) (archived : Bool)
  | updateRepositoryAddTeamAccess (reponame teamslug permission : String)
  | updateRepositoryUpdateTeamAccess (reponame teamslug permission : String)
  | updateRepositoryRemoveTeamAccess (reponame teamslug : String)
  | updateRepositorySetExternalUser (reponame collaboratorGithubId permission : String)
  | updateRepositoryRemoveExternalUser (reponame collaboratorGithubId : String)
  | addRuleset (ruleset : GithubRuleSet)
  | updateRuleset (ruleset : GithubRuleSet)
  | deleteRuleset (rulesetid : Nat)
deriving DecidableEq

/-- An operation forwarded to the Executor, together with the `dryrun` flag
it was forwarded with. -/
structure ExecCall where
  dryrun : Bool
  op : Op
deriving DecidableEq

/-- The destructive operation classes gated by policy. -/
def DestructiveOp : Op → Prop
  | .removeUserFromOrg _ => True
  | .deleteTeam _ => True
  | .deleteRepository _ => True
  | .deleteRuleset _ => True
  | _ => False

instance (o : Op) : Decidable (DestructiveOp o) := by
  cases o <;> simp only [DestructiveOp] <;> infer_instance

/-- Permission normalization used by the mirror so that re-reads classify
writers as the live snapshot does ("WRITE" vs everything else).
`Modelled from the spec:` §4.2, each mutator updates the overlay so that
reads reflect the post-mutation world. -/
def toRemotePerm (permission : String) : String :=
  if permission = "push" then "WRITE" else "READ"

/-- `Modelled from the spec:` §4.2 — the mirror mutators of
`MutableGoliacRemoteImpl`, one case per operation of the catalogue.  The
ruleset operations never touch the mirror (the mediator methods
`AddRuleset`/`UpdateRuleset`/`DeleteRuleset` of the source only forward to
the executor). -/
def setTeamRepoPerm (teamslug reponame permission : String) (m : GoliacRemote) :
    GoliacRemote :=
  { m with teamRepos := (ainsert teamslug
      (ainsert reponame permission ((alookup teamslug m.teamRepos).getD []))
      m.teamRepos) }

def applyMirrorOp (m : GoliacRemote) : Op → GoliacRemote
  | .addUserToOrg id =>
      { m with users := if m.users.contains id then m.users else m.users ++ [id] }
  | .removeUserFromOrg id =>
      { m with users := m.users.filter (fun u => u ≠ id) }
  | .createTeam slugname description members =>
      { m with teams := ainsert slugname ⟨description, slugname, members⟩ m.teams }
  | .deleteTeam slugname =>
      { m with teams := aerase slugname m.teams, teamRepos := aerase slugname m.teamRepos }
  | .updateTeamAddMember slugname username _role =>
      { m with teams := (aupdate slugname
          (fun t => { t with Members := t.Members ++ [username] }) m.teams) }
  | .updateTeamRemoveMember slugname username =>
      { m with teams := (aupdate slugname
          (fun t => { t with Members := t.Members.filter (fun u => u ≠ username) })
          m.teams) }
  | .createRepository reponame _descr writers readers pub =>
      let m' := { m with repositories := ainsert reponame ⟨!pub, false, []⟩ m.repositories }
      let m'' := writers.foldl (fun acc w => setTeamRepoPerm w reponame "WRITE" acc) m'
      readers.foldl (fun acc r => setTeamRepoPerm r reponame "READ" acc) m''
  | .deleteRepository reponame =>
      { m with repositories := aerase reponame m.repositories,
               teamRepos := m.teamRepos.map (fun p => (p.1, aerase reponame p.2)) }
  | .updateRepositoryUpdatePrivate reponame priv =>
      { m with repositories := (aupdate reponame
          (fun r => { r with IsPrivate := priv }) m.repositories) }
  | .updateRepositoryUpdateArchived reponame archived =>
      { m with repositories := (aupdate reponame
          (fun r => { r with IsArchived := archived }) m.repositories) }
  | .updateRepositoryAddTeamAccess reponame teamslug permission =>
      setTeamRepoPerm teamslug reponame (toRemotePerm permission) m
  | .updateRepositoryUpdateTeamAccess reponame teamslug permission =>
      setTeamRepoPerm teamslug reponame (toRemotePerm permission) m
  | .updateRepositoryRemoveTeamAccess reponame teamslug =>
      { m with teamRepos := aupdate teamslug (fun rs => aerase reponame rs) m.teamRepos }
  | .updateRepositorySetExternalUser reponame collaboratorGithubId permission =>
      { m with repositories := (aupdate reponame
          (fun r => { r with ExternalUsers :=
            (ainsert collaboratorGithubId (toRemotePerm permission) r.ExternalUsers) })
          m.repositories) }
  | .updateRepositoryRemoveExternalUser reponame collaboratorGithubId =>
      { m with repositories := (aupdate reponame
          (fun r => { r with ExternalUsers := aerase collaboratorGithubId r.ExternalUsers })
          m.repositories) }
  | .addRuleset _ => m
  | .updateRuleset _ => m
  | .deleteRuleset _ => m

/-- State threaded through one reconciliation: the mirror, the sequence of
mirror mutations applied so far, and the calls forwarded to the Executor. -/
structure RState where
  mirror : GoliacRemote
  mirrorOps : List Op
  execCalls : List ExecCall
deriving DecidableEq

/-- One mediator step: apply `mOps` to the mirror (recording them) and
forward `eCalls` to the executor. -/
def mstep (s : RState) (mOps : List Op) (eCalls : List ExecCall) : RState :=
  { mirror := mOps.foldl applyMirrorOp s.mirror,
    mirrorOps := s.mirrorOps ++ mOps,
    execCalls := s.execCalls ++ eCalls }

/-- Configuration: destructive-operation gates. -/
structure ConfigDestructiveOperations where
  AllowDestructiveUsers : Bool
  AllowDestructiveTeams : Bool
  AllowDestructiveRepositories : Bool
  AllowDestructiveRulesets : Bool
deriving DecidableEq

/-- One configured `(pattern, ruleset)` entry. -/
structure ConfRuleset where
  Pattern : String
  Ruleset : String
deriving DecidableEq

/-- `config.RepositoryConfig` as the engine reads it. -/
structure RepositoryConfig where
  EveryoneTeamEnabled : Bool
  Rulesets : List ConfRuleset
  DestructiveOperations : ConfigDestructiveOperations
deriving DecidableEq

/-- The reconciliator (`GoliacReconciliatorImpl`): whether an executor is
attached, the repository configuration, and the abstracted
`regexp.Compile` (`none` = the pattern does not compile; `some m` = the
compiled pattern with anchored core matcher `m`). -/
structure Reconciliator where
  hasExecutor : Bool
  repoconfig : RepositoryConfig
  compile : String → Option (List Char → Bool)

/-- Executor forwarding of one operation (empty when no executor attached). -/
def Reconciliator.fwd (r : Reconciliator) (dryrun : Bool) (op : Op) : List ExecCall :=
  if r.hasExecutor then [⟨dryrun, op⟩] else []

/-- Mediator `AddUserToOrg`: mirror update, then forward. -/
def Reconciliator.AddUserToOrg (r : Reconciliator) (dryrun : Bool) (s : RState)
    (ghuserid : String) : RState :=
  mstep s [.addUserToOrg ghuserid] (r.fwd dryrun (.addUserToOrg ghuserid))

/-- Mediator `RemoveUserFromOrg`: mirror update always; forwarding gated by
`AllowDestructiveUsers`. -/
def Reconciliator.RemoveUserFromOrg (r : Reconciliator) (dryrun : Bool) (s : RState)
    (ghuserid : String) : RState :=
  mstep s [.removeUserFromOrg ghuserid]
    (if r.repoconfig.DestructiveOperations.AllowDestructiveUsers then
      r.fwd dryrun (.removeUserFromOrg ghuserid)
    else [])

/-- Mediator `CreateTeam`. -/
def Reconciliator.CreateTeam (r : Reconciliator) (dryrun : Bool) (s : RState)
    (teamname description : String) (members : List String) : RState :=
  mstep s [.createTeam teamname description members]
    (r.fwd dryrun (.createTeam teamname description members))

/-- Mediator `DeleteTeam`: fully gated by `AllowDestructiveTeams` (log,
mirror update and forwarding are all suppressed when gated). -/
def Reconciliator.DeleteTeam (r : Reconciliator) (dryrun : Bool) (s : RState)
    (teamslug : String) : RState :=
  if r.repoconfig.DestructiveOperations.AllowDestructiveTeams then
    mstep s [.deleteTeam teamslug] (r.fwd dryrun (.deleteTeam teamslug))
  else s

/-- Mediator `UpdateTeamAddMember` (the role is overwritten to `"member"`). -/
def Reconciliator.UpdateTeamAddMember (r : Reconciliator) (dryrun : Bool) (s : RState)
    (teamslug username _role : String) : RState :=
  mstep s [.updateTeamAddMember teamslug username "member"]
    (r.fwd dryrun (.updateTeamAddMember teamslug username "member"))

/-- Mediator `UpdateTeamRemoveMember`. -/
def Reconciliator.UpdateTeamRemoveMember (r : Reconciliator) (dryrun : Bool) (s : RState)
    (teamslug username : String) : RState :=
  mstep s [.updateTeamRemoveMember teamslug username]
    (r.fwd dryrun (.updateTeamRemoveMember teamslug username))

/-- Mediator `CreateRepository` (the description equals the name at the
call site, as in the source). -/
def Reconciliator.CreateRepository (r : Reconciliator) (dryrun : Bool) (s : RState)
    (reponame _description : String) (writers readers : List String) (pub : Bool) : RState :=
  mstep s [.createRepository reponame reponame writers readers pub]
    (r.fwd dryrun (.createRepository reponame reponame writers readers pub))

/-- Mediator `DeleteRepository`: fully gated by `AllowDestructiveRepositories`. -/
def Reconciliator.DeleteRepository (r : Reconciliator) (dryrun : Bool) (s : RState)
    (reponame : String) : RState :=
  if r.repoconfig.DestructiveOperations.AllowDestructiveRepositories then
    mstep s [.deleteRepository reponame] (r.fwd dryrun (.deleteRepository reponame))
  else s

/-- Mediator `UpdateRepositoryUpdatePrivate`. -/
def Reconciliator.UpdateRepositoryUpdatePrivate (r : Reconciliator) (dryrun : Bool)
    (s : RState) (reponame : String) (priv : Bool) : RState :=
  mstep s [.updateRepositoryUpdatePrivate reponame priv]
    (r.fwd dryrun (.updateRepositoryUpdatePrivate reponame priv))

/-- Mediator `UpdateRepositoryUpdateArchived`. -/
def Reconciliator.UpdateRepositoryUpdateArchived (r : Reconciliator) (dryrun : Bool)
    (s : RState) (reponame : String) (archived : Bool) : RState :=
  mstep s [.updateRepositoryUpdateArchived reponame archived]
    (r.fwd dryrun (.updateRepositoryUpdateArchived reponame archived))

/-- Mediator `UpdateRepositoryAddTeamAccess`. -/
def Reconciliator.UpdateRepositoryAddTeamAccess (r : Reconciliator) (dryrun : Bool)
    (s : RState) (reponame teamslug permission : String) : RState :=
  mstep s [.updateRepositoryAddTeamAccess reponame teamslug permission]
    (r.fwd dryrun (.updateRepositoryAddTeamAccess reponame teamslug permission))

/-- Mediator `UpdateRepositoryUpdateTeamAccess`. -/
def Reconciliator.UpdateRepositoryUpdateTeamAccess (r : Reconciliator) (dryrun : Bool)
    (s : RState) (reponame teamslug permission : String) : RState :=
  mstep s [.updateRepositoryUpdateTeamAccess reponame teamslug permission]
    (r.fwd dryrun (.updateRepositoryUpdateTeamAccess reponame teamslug permission))

/-- Mediator `UpdateRepositoryRemoveTeamAccess`. -/
def Reconciliator.UpdateRepositoryRemoveTeamAccess (r : Reconciliator) (dryrun : Bool)
    (s : RState) (reponame teamslug : String) : RState :=
  mstep s [.updateRepositoryRemoveTeamAccess reponame teamslug]
    (r.fwd dryrun (.updateRepositoryRemoveTeamAccess reponame teamslug))

/-- Mediator `UpdateRepositorySetExternalUser`. -/
def Reconciliator.UpdateRepositorySetExternalUser (r : Reconciliator) (dryrun : Bool)
    (s : RState) (reponame collaboratorGithubId permission : String) : RState :=
  mstep s [.updateRepositorySetExternalUser reponame collaboratorGithubId permission]
    (r.fwd dryrun (.updateRepositorySetExternalUser reponame collaboratorGithubId permission))

/-- Mediator `UpdateRepositoryRemoveExternalUser`. -/
def Reconciliator.UpdateRepositoryRemoveExternalUser (r : Reconciliator) (dryrun : Bool)
    (s : RState) (reponame collaboratorGithubId : String) : RState :=
  mstep s [.updateRepositoryRemoveExternalUser reponame collaboratorGithubId]
    (r.fwd dryrun (.updateRepositoryRemoveExternalUser reponame collaboratorGithubId))

/-- Mediator `AddRuleset` (no mirror update in the source). -/
def Reconciliator.AddRuleset (r : Reconciliator) (dryrun : Bool) (s : RState)
    (ruleset : GithubRuleSet) : RState :=
  mstep s [] (r.fwd dryrun (.addRuleset ruleset))

/-- Mediator `UpdateRuleset` (no mirror update in the source). -/
def Reconciliator.UpdateRuleset (r : Reconciliator) (dryrun : Bool) (s : RState)
    (ruleset : GithubRuleSet) : RState :=
  mstep s [] (r.fwd dryrun (.updateRuleset ruleset))

/-- Mediator `DeleteRuleset`: gated by `AllowDestructiveRulesets`; no mirror
update in the source even when allowed. -/
def Reconciliator.DeleteRuleset (r : Reconciliator) (dryrun : Bool) (s : RState)
    (rulesetid : Nat) : RState :=
  if r.repoconfig.DestructiveOperations.AllowDestructiveRulesets then
    mstep s [] (r.fwd dryrun (.deleteRuleset rulesetid))
  else s

/-! ## The set-diff primitive and the four passes -/

/-- `Modelled from the spec:` §4.1, the set-diff primitive `CompareEntities`
(`engine/compare.go` is not among the given sources).  For every key in the
union of the two maps exactly one callback fires: `onAdded` for
declared-only keys, `onRemoved` for live-only keys, `onChanged` for keys
present in both with `equiv` false. -/
def CompareEntities {α : Type} (s : RState)
    (lents rents : List (String × α)) (equiv : α → α → Bool)
    (onAdded : RState → String → α → RState)
    (onRemoved : RState → String → α → RState)
    (onChanged : RState → String → α → α → RState) : RState :=
  let s1 := lents.foldl (fun acc p =>
    match alookup p.1 rents with
    | none => onAdded acc p.1 p.2
    | some rv => if equiv p.2 rv then acc else onChanged acc p.1 p.2 rv) s
  rents.foldl (fun acc p =>
    match alookup p.1 lents with
    | none => onRemoved acc p.1 p.2
    | some _ => acc) s1

/-- The errors a pass can return (only the rulesets pass constructs them):
an unparsable ruleset pattern or a reference to an undefined ruleset. -/
inductive RecError where
  | invalidRulesetPattern (pattern : String)
  | unknownRuleset (name : String)
deriving DecidableEq

/-- The users pass (`reconciliateUsers`).  Note the source bug: when the
declared user's `GithubID` is absent from the live map, the variable bound
to the failed lookup (Go zero value, the empty string) is what is passed to
`AddUserToOrg`, not the declared id. -/
def Reconciliator.usersAddStep (r : Reconciliator) (dryrun : Bool)
    (acc : RState × List (String × String)) (p : String × User) :
    RState × List (String × String) :=
  match alookup p.2.GithubID acc.2 with
  | none => (r.AddUserToOrg dryrun acc.1 "", acc.2)
  | some user => (acc.1, aerase user acc.2)

def Reconciliator.usersPassState (r : Reconciliator) (lcl : GoliacLocal) (dryrun : Bool)
    (s : RState) : RState :=
  let ghUsers := s.mirror.users
  let rUsers : List (String × String) := ghUsers.map (fun u => (u, u))
  let acc := lcl.users.foldl (r.usersAddStep dryrun) (s, rUsers)
  acc.2.foldl (fun st q => r.RemoveUserFromOrg dryrun st q.2) acc.1

def Reconciliator.reconciliateUsers (r : Reconciliator) (lcl : GoliacLocal) (dryrun : Bool)
    (s : RState) : RState × Option RecError :=
  (r.usersPassState lcl dryrun s, none)

/-- The declared member names of a team translated to external identifiers
through the declared-user table, dedup-inserting like Go's
`map[string]bool` (`localMembers` of the `onChanged` closure). -/
def localMembersOf (lcl : GoliacLocal) (lT : GithubTeam) : List String :=
  lT.Members.foldl (fun acc mname =>
    match alookup mname lcl.users with
    | some u => if acc.contains u.GithubID then acc else acc ++ [u.GithubID]
    | none => acc) []

/-- One live-member step of the teams `onChanged` callback: a live member
not declared is removed; a declared one is checked off. -/
def Reconciliator.teamsMemberStep (r : Reconciliator) (dryrun : Bool) (slugTeam : String)
    (acc : RState × List String) (mem : String) : RState × List String :=
  if acc.2.contains mem then (acc.1, acc.2.filter (fun x => x ≠ mem))
  else (r.UpdateTeamRemoveMember dryrun acc.1 slugTeam mem, acc.2)

def Reconciliator.teamsOnAdded (r : Reconciliator) (lcl : GoliacLocal) (dryrun : Bool)
    (st : RState) (_k : String) (lT : GithubTeam) : RState :=
  let members := lT.Members.filterMap
    (fun mname => (alookup mname lcl.users).map (·.GithubID))
  r.CreateTeam dryrun st lT.Slug lT.Name members

def Reconciliator.teamsOnRemoved (r : Reconciliator) (dryrun : Bool)
    (st : RState) (_k : String) (rT : GithubTeam) : RState :=
  r.DeleteTeam dryrun st rT.Slug

def Reconciliator.teamsOnChanged (r : Reconciliator) (lcl : GoliacLocal) (dryrun : Bool)
    (st : RState) (slugTeam : String) (lT rT : GithubTeam) : RState :=
  let acc := rT.Members.foldl (r.teamsMemberStep dryrun slugTeam)
    (st, localMembersOf lcl lT)
  acc.2.foldl (fun st2 mem => r.UpdateTeamAddMember dryrun st2 slugTeam mem "member") acc.1

/-- The declared team comparables: each declared team under its slug with
members ∪ owners, its `-owners` sibling with the owners, plus the synthetic
`everyone` team when enabled. -/
def buildSlugTeams (r : Reconciliator) (lcl : GoliacLocal) :
    List (String × GithubTeam) :=
  let slugTeams0 : List (String × GithubTeam) :=
    lcl.teams.foldl (fun acc p =>
      let teamname := p.1
      let members := p.2.Members ++ p.2.Owners
      let teamslug := slugMake teamname
      ainsert (teamslug ++ "-owners")
        ⟨teamname ++ "-owners", teamslug ++ "-owners", p.2.Owners⟩
        (ainsert teamslug ⟨teamname, teamslug, members⟩ acc)) []
  if r.repoconfig.EveryoneTeamEnabled then
    ainsert "everyone" ⟨"everyone", "everyone", akeys lcl.users⟩ slugTeams0
  else slugTeams0

def Reconciliator.teamsPassState (r : Reconciliator) (lcl : GoliacLocal) (dryrun : Bool)
    (s : RState) : RState :=
  CompareEntities s (buildSlugTeams r lcl) s.mirror.teams
    (fun lT rT => (StringArrayEquivalent lT.Members rT.Members).1)
    (r.teamsOnAdded lcl dryrun) (r.teamsOnRemoved dryrun) (r.teamsOnChanged lcl dryrun)

def Reconciliator.reconciliateTeams (r : Reconciliator) (lcl : GoliacLocal) (dryrun : Bool)
    (s : RState) : RState × Option RecError :=
  (r.teamsPassState lcl dryrun s, none)

/-- The repository equality predicate (`compareRepos` closure of
`reconciliateRepositories`). -/
def compareRepos (l rr : GithubRepoComparable) : Bool :=
  l.IsArchived == rr.IsArchived && l.IsPublic == rr.IsPublic
  && (StringArrayEquivalent l.Readers rr.Readers).1
  && (StringArrayEquivalent l.Writers rr.Writers).1
  && (StringArrayEquivalent l.ExternalUserReaders rr.ExternalUserReaders).1
  && (StringArrayEquivalent l.ExternalUserWriters rr.ExternalUserWriters).1

/-- One reader or writer team-access change block of the `onChanged`
callback: `AddTeamAccess` for every slug to add, then `RemoveTeamAccess`
for every slug to remove. -/
def Reconciliator.repoChangedTeamsStage (r : Reconciliator) (dryrun : Bool)
    (reponame perm : String) (toAdd toRemove : List String) (s : RState) : RState :=
  let sA := toAdd.foldl
    (fun st t => r.UpdateRepositoryAddTeamAccess dryrun st reponame t perm) s
  toRemove.foldl (fun st t => r.UpdateRepositoryRemoveTeamAccess dryrun st reponame t) sA

/-- One external-user change block of the `onChanged` callback:
`RemoveExternalUser` for every id to remove — skipped for ids appearing in
the opposite set's to-add list (`skipList`, the cross-check) — then
`SetExternalUser` with the given permission for every id to add. -/
def Reconciliator.repoChangedExtStage (r : Reconciliator) (dryrun : Bool)
    (reponame perm : String) (toRemove toAdd skipList : List String) (s : RState) : RState :=
  let sRem := toRemove.foldl (fun st u =>
    if skipList.contains u then st
    else r.UpdateRepositoryRemoveExternalUser dryrun st reponame u) s
  toAdd.foldl (fun st u => r.UpdateRepositorySetExternalUser dryrun st reponame u perm) sRem

/-- The `onChanged` callback of the repositories pass, in the exact order of
the source: visibility, archived, reader team add/remove, writer team
add/remove, external-user reconciliation with the reader/writer
cross-check. -/
def Reconciliator.repoOnChanged (r : Reconciliator) (dryrun : Bool) (s : RState)
    (reponame : String) (lRepo rRepo : GithubRepoComparable) : RState :=
  let s1 := if lRepo.IsPublic ≠ rRepo.IsPublic then
      r.UpdateRepositoryUpdatePrivate dryrun s reponame (!lRepo.IsPublic) else s
  let s2 := if lRepo.IsArchived ≠ rRepo.IsArchived then
      r.UpdateRepositoryUpdateArchived dryrun s1 reponame lRepo.IsArchived else s1
  let pR := StringArrayEquivalent lRepo.Readers rRepo.Readers
  let s3 := if pR.1 = false then
      r.repoChangedTeamsStage dryrun reponame "pull" pR.2.2 pR.2.1 s2
    else s2
  let pW := StringArrayEquivalent lRepo.Writers rRepo.Writers
  let s4 := if pW.1 = false then
      r.repoChangedTeamsStage dryrun reponame "push" pW.2.2 pW.2.1 s3
    else s3
  let eR := StringArrayEquivalent lRepo.ExternalUserReaders rRepo.ExternalUserReaders
  let eW := StringArrayEquivalent lRepo.ExternalUserWriters rRepo.ExternalUserWriters
  let s5 := if eR.1 = false then
      r.repoChangedExtStage dryrun reponame "pull" eR.2.1 eR.2.2 eW.2.2 s4
    else s4
  if eW.1 = false then
    r.repoChangedExtStage dryrun reponame "push" eW.2.1 eW.2.2 eR.2.2 s5
  else s5

/-- The live repository comparables of the repositories pass: flags and
external users from the repository map, then the team→repo permissions
inverted onto each repository. -/
def buildRRepos (mirror : GoliacRemote) : List (String × GithubRepoComparable) :=
  let rRepos0 : List (String × GithubRepoComparable) := mirror.repositories.map (fun p =>
    (p.1,
     { IsPublic := !p.2.IsPrivate
       IsArchived := p.2.IsArchived
       Writers := []
       Readers := []
       ExternalUserReaders := (p.2.ExternalUsers.filter (fun q => q.2 ≠ "WRITE")).map (·.1)
       ExternalUserWriters := (p.2.ExternalUsers.filter (fun q => q.2 = "WRITE")).map (·.1) }))
  mirror.teamRepos.foldl (fun acc tp =>
    tp.2.foldl (fun acc2 rp =>
      if (alookup rp.1 acc2).isSome then
        aupdate rp.1 (fun rr =>
          if rp.2 = "ADMIN" ∨ rp.2 = "WRITE" then { rr with Writers := rr.Writers ++ [tp.1] }
          else { rr with Readers := rr.Readers ++ [tp.1] }) acc2
      else acc2) acc) rRepos0

/-- The declared repository comparables of the repositories pass. -/
def buildLRepos (r : Reconciliator) (lcl : GoliacLocal) (teamsreponame : String) :
    List (String × GithubRepoComparable) :=
  lcl.repositories.foldl (fun acc p =>
    let reponame := p.1
    let lRepo := p.2
    let writers0 := lRepo.Writers.map slugMake
    let writers1 := match lRepo.Owner with
      | some o => writers0 ++ [slugMake o]
      | none => writers0
    let writers2 := if reponame = teamsreponame then
        writers1 ++ lcl.teams.map (fun t => slugMake t.1 ++ "-owners")
      else writers1
    let readers0 := lRepo.Readers.map slugMake
    let readers1 := if r.repoconfig.EveryoneTeamEnabled then
        readers0 ++ ["everyone"]
      else readers0
    let eReaders := lRepo.ExternalUserReaders.filterMap
      (fun n => (alookup n lcl.externalUsers).map (·.GithubID))
    let eWriters := lRepo.ExternalUserWriters.filterMap
      (fun n => (alookup n lcl.externalUsers).map (·.GithubID))
    ainsert (slugMake reponame)
      { IsPublic := lRepo.IsPublic, IsArchived := lRepo.Archived,
        Writers := writers2, Readers := readers1,
        ExternalUserReaders := eReaders, ExternalUserWriters := eWriters } acc) []

/-- The repositories pass (`reconciliateRepositories`). -/
def Reconciliator.reposOnAdded (r : Reconciliator) (dryrun : Bool)
    (st : RState) (reponame : String) (lRepo : GithubRepoComparable) : RState :=
  r.CreateRepository dryrun st reponame reponame lRepo.Writers lRepo.Readers lRepo.IsPublic

def Reconciliator.reposOnRemoved (r : Reconciliator) (dryrun : Bool)
    (st : RState) (reponame : String) (_rRepo : GithubRepoComparable) : RState :=
  r.DeleteRepository dryrun st reponame

def Reconciliator.reposPassState (r : Reconciliator) (lcl : GoliacLocal)
    (teamsreponame : String) (dryrun : Bool) (s : RState) : RState :=
  CompareEntities s (buildLRepos r lcl teamsreponame) (buildRRepos s.mirror) compareRepos
    (r.reposOnAdded dryrun) (r.reposOnRemoved dryrun) (r.repoOnChanged dryrun)

def Reconciliator.reconciliateRepositories (r : Reconciliator) (lcl : GoliacLocal)
    (teamsreponame : String) (dryrun : Bool) (s : RState) : RState × Option RecError :=
  (r.reposPassState lcl teamsreponame dryrun s, none)

/-- The repository list of one ruleset comparable: every declared repository
whose slug matches the configured pattern (unanchored, like Go's
`regexp.Match`). -/
def rulesetRepositories (m : List Char → Bool) (repos : List (String × Repository)) :
    List String :=
  (repos.filter (fun p => goMatch m (slugMake p.1))).map (fun p => slugMake p.1)

/-- The local-comparable construction loop of `reconciliateRulesets`:
fail-fast on an unparsable pattern or an undefined ruleset reference. -/
def Reconciliator.buildLgrs (r : Reconciliator) (lcl : GoliacLocal)
    (acc : List (String × GithubRuleSet)) :
    List ConfRuleset → Except RecError (List (String × GithubRuleSet))
  | [] => .ok acc
  | c :: rest =>
    match r.compile c.Pattern with
    | none => .error (.invalidRulesetPattern c.Pattern)
    | some m =>
      match alookup c.Ruleset lcl.rulesets with
      | none => .error (.unknownRuleset c.Ruleset)
      | some rs =>
        let grs : GithubRuleSet :=
          { Name := rs.Name, Id := 0, Enforcement := rs.Enforcement,
            BypassApps := rs.BypassApps.foldl (fun bacc b => ainsert b.AppName b.Mode bacc) [],
            OnInclude := rs.OnInclude, OnExclude := rs.OnExclude,
            Rules := rs.Rules.foldl (fun racc q => ainsert q.Ruletype q.Parameters racc) [],
            Repositories := rulesetRepositories m lcl.repositories }
        r.buildLgrs lcl (ainsert rs.Name grs acc) rest

/-- The ruleset equality predicate (`compareRulesets` closure); absent map
keys compare as the Go zero value. -/
def compareRulesets (lrs rrs : GithubRuleSet) : Bool :=
  lrs.Enforcement == rrs.Enforcement
  && lrs.BypassApps.length == rrs.BypassApps.length
  && lrs.BypassApps.all (fun p => ((alookup p.1 rrs.BypassApps).getD "") == p.2)
  && (StringArrayEquivalent lrs.OnInclude rrs.OnInclude).1
  && (StringArrayEquivalent lrs.OnExclude rrs.OnExclude).1
  && lrs.Rules.length == rrs.Rules.length
  && lrs.Rules.all (fun p =>
       CompareRulesetParameters p.1 p.2 ((alookup p.1 rrs.Rules).getD ("" : String)))
  && (StringArrayEquivalent lrs.Repositories rrs.Repositories).1

def Reconciliator.rulesetsOnAdded (r : Reconciliator) (dryrun : Bool)
    (st : RState) (_k : String) (lrs : GithubRuleSet) : RState :=
  r.AddRuleset dryrun st lrs

def Reconciliator.rulesetsOnRemoved (r : Reconciliator) (dryrun : Bool)
    (st : RState) (_k : String) (rrs : GithubRuleSet) : RState :=
  r.DeleteRuleset dryrun st rrs.Id

def Reconciliator.rulesetsOnChanged (r : Reconciliator) (dryrun : Bool)
    (st : RState) (_k : String) (lrs rrs : GithubRuleSet) : RState :=
  r.UpdateRuleset dryrun st { lrs with Id := rrs.Id }

/-- The rulesets pass (`reconciliateRulesets`). -/
def Reconciliator.reconciliateRulesets (r : Reconciliator) (lcl : GoliacLocal)
    (conf : RepositoryConfig) (dryrun : Bool) (s : RState) : RState × Option RecError :=
  match r.buildLgrs lcl [] conf.Rulesets with
  | .error e => (s, some e)
  | .ok lgrs =>
    (CompareEntities s lgrs s.mirror.rulesets compareRulesets
      (r.rulesetsOnAdded dryrun) (r.rulesetsOnRemoved dryrun) (r.rulesetsOnChanged dryrun),
     none)

/-- The error outcome of the rulesets pass (it depends only on the
configuration and the declared state, not on the mirror). -/
def Reconciliator.rulesetsPassErr (r : Reconciliator) (lcl : GoliacLocal) : Option RecError :=
  match r.buildLgrs lcl [] r.repoconfig.Rulesets with
  | .error e => some e
  | .ok _ => none

/-! ## The transaction envelope -/

/-- Envelope events forwarded around the passes. -/
inductive EnvEvent where
  | begin (dryrun : Bool)
  | commit (dryrun : Bool)
  | rollback (dryrun : Bool) (e : RecError)
deriving DecidableEq

/-- Outcome of one reconciliation: final state, the envelope events in
order, and the returned error. -/
structure RecResult where
  state : RState
  envelope : List EnvEvent
  err : Option RecError
deriving DecidableEq

/-- `Reconciliate`: wrap the mirror around the remote snapshot, `Begin`,
run the four passes in order (rulesets only on an enterprise remote),
`Rollback` and return on the first error, otherwise `Commit`. -/
def Reconciliator.Reconciliate (r : Reconciliator) (lcl : GoliacLocal)
    (remote : GoliacRemote) (teamsreponame : String) (dryrun : Bool) : RecResult :=
  let s0 : RState := ⟨remote, [], []⟩
  let u := r.reconciliateUsers lcl dryrun s0
  match u.2 with
  | some e => ⟨u.1, [.begin dryrun, .rollback dryrun e], some e⟩
  | none =>
    let t := r.reconciliateTeams lcl dryrun u.1
    match t.2 with
    | some e => ⟨t.1, [.begin dryrun, .rollback dryrun e], some e⟩
    | none =>
      let p := r.reconciliateRepositories lcl teamsreponame dryrun t.1
      match p.2 with
      | some e => ⟨p.1, [.begin dryrun, .rollback dryrun e], some e⟩
      | none =>
        if remote.enterprise then
          let q := r.reconciliateRulesets lcl r.repoconfig dryrun p.1
          match q.2 with
          | some e => ⟨q.1, [.begin dryrun, .rollback dryrun e], some e⟩
          | none => ⟨q.1, [.begin dryrun, .commit dryrun], none⟩
        else ⟨p.1, [.begin dryrun, .commit dryrun], none⟩

/-! ## The apply scheduler (`serveApply` of `goliac_server.go`)

All accesses to `applyCurrent` / `applyLobby` happen under the single mutex
`applyLobbyMutex`, so the scheduler is a transition system whose atomic
steps are the mutex-held critical sections of `serveApply`:

* `enterSkip` — entry with `applyLobby` set: unlock and return
  `(nil, false)` ("skipped"), no reconciliation runs;
* `enterRun` — entry with `applyLobby` and `applyCurrent` clear: set
  `applyCurrent`, unlock, run the reconciliation;
* `enterWait` — entry with `applyLobby` clear but `applyCurrent` set: set
  `applyLobby` and block on the condition variable (the `for g.applyLobby
  { Wait() }` loop);
* `wake` — a blocked caller re-acquires the mutex and observes
  `applyLobby == false` (the loop exits; `sync.Cond.Wait` only returns
  after a `Signal`, so allowing this step whenever `applyLobby` is false
  over-approximates the real wake-ups — sound for the safety invariants
  proved below, and the counterexample trace uses no `wake` step at all);
* `exitRun` — the deferred epilogue: if `applyLobby` is set, clear it and
  signal; otherwise clear `applyCurrent`.

The state counts how many callers are currently inside the running section
and how many are blocked in the wait loop. -/

/-- Scheduler state: the two flags plus the number of callers currently
running and currently blocked in the lobby wait loop. -/
structure SchedState where
  current : Bool
  lobby : Bool
  nRunning : Nat
  nWaiting : Nat
deriving DecidableEq

/-- Labels naming the atomic critical sections of `serveApply`. -/
inductive SchedLabel where
  | enterSkip
  | enterRun
  | enterWait
  | wake
  | exitRun
deriving DecidableEq

/-- One atomic mutex-held step of the scheduler. -/
inductive SchedStep : SchedState → SchedLabel → SchedState → Prop where
  | enterSkip (s : SchedState) (h : s.lobby = true) : SchedStep s .enterSkip s
  | enterRun (s : SchedState) (hl : s.lobby = false) (hc : s.current = false) :
      SchedStep s .enterRun ⟨true, false, s.nRunning + 1, s.nWaiting⟩
  | enterWait (s : SchedState) (hl : s.lobby = false) (hc : s.current = true) :
      SchedStep s .enterWait ⟨true, true, s.nRunning, s.nWaiting + 1⟩
  | wake (s : SchedState) (hl : s.lobby = false) (hw : s.nWaiting ≠ 0) :
      SchedStep s .wake ⟨s.current, s.lobby, s.nRunning + 1, s.nWaiting - 1⟩
  | exitRun (s : SchedState) (hr : s.nRunning ≠ 0) :
      SchedStep s .exitRun
        ⟨if s.lobby then s.current else false, false, s.nRunning - 1, s.nWaiting⟩

/-- Some step with any label. -/
def SchedStepAny (a b : SchedState) : Prop := ∃ l, SchedStep a l b

/-- The initial scheduler state (fresh `GoliacServerImpl`). -/
def schedInit : SchedState := ⟨false, false, 0, 0⟩

/-- Reachability of scheduler states from the initial state. -/
def SchedReachable (s : SchedState) : Prop :=
  Relation.ReflTransGen SchedStepAny schedInit s

/-- The inductive invariant of the scheduler: the possible shapes of
(running, waiting, lobby) as a function of `current`. -/
def SchedInv (s : SchedState) : Prop :=
  (s.current = false → s.nRunning = 0 ∧ s.nWaiting = 0 ∧ s.lobby = false) ∧
  (s.current = true →
    (s.nRunning = 1 ∧ s.nWaiting = 0 ∧ s.lobby = false) ∨
    (s.nRunning = 1 ∧ s.nWaiting = 1 ∧ s.lobby = true) ∨
    (s.nRunning = 0 ∧ s.nWaiting = 1 ∧ s.lobby = false) ∨
    (s.nRunning = 0 ∧ s.nWaiting = 2 ∧ s.lobby = true))

theorem schedInv_init : SchedInv schedInit := by
  constructor <;> intro h <;> simp [schedInit] at h ⊢

theorem schedInv_step {a b : SchedState} (ha : SchedInv a) (h : SchedStepAny a b) :
    SchedInv b := by
  obtain ⟨l, hstep⟩ := h
  cases hstep with
  | enterSkip h => exact ha
  | enterRun hl hc =>
    rcases ha.1 hc with ⟨h1, h2, _⟩
    constructor
    · intro hcon; simp at hcon
    · intro _; left; simp [h1, h2]
  | enterWait hl hc =>
    rcases ha.2 hc with h4 | h4 | h4 | h4
    · constructor
      · intro hcon; simp at hcon
      · intro _; right; left; simp [h4.1, h4.2.1]
    · simp [hl] at h4
    · constructor
      · intro hcon; simp at hcon
      · intro _; right; right; right; simp [h4.1, h4.2.1]
    · simp [hl] at h4
  | wake hl hw =>
    have hc : a.current = true := by
      by_contra hcc
      rw [Bool.not_eq_true] at hcc
      exact hw (ha.1 hcc).2.1
    rcases ha.2 hc with h4 | h4 | h4 | h4
    · exact absurd h4.2.1 hw
    · simp [hl] at h4
    · constructor
      · intro hcon; rw [hc] at hcon; simp at hcon
      · intro _; left; simp [h4.1, h4.2.1, hl]
    · simp [hl] at h4
  | exitRun hr =>
    have hc : a.current = true := by
      by_contra hcc
      rw [Bool.not_eq_true] at hcc
      exact hr (ha.1 hcc).1
    rcases ha.2 hc with h4 | h4 | h4 | h4
    · constructor
      · intro _; simp [h4.1, h4.2.1, h4.2.2]
      · intro hcon; simp [h4.2.2] at hcon
    · constructor
      · intro hcon; simp [h4.2.2, hc] at hcon
      · intro _; right; right; left; simp [h4.1, h4.2.1, h4.2.2]
    · exact absurd h4.1 hr
    · exact absurd h4.1 hr

theorem schedInv_reachable {s : SchedState} (h : SchedReachable s) : SchedInv s := by
  induction h with
  | refl => exact schedInv_init
  | tail _ hstep ih => exact schedInv_step ih hstep

/-! ## Concrete inputs used by the claim theorems -/

/-- Declared state with the single user `alice → ghAlice`. -/
def lclAlice : GoliacLocal := ⟨[("alice", ⟨"ghAlice"⟩)], [], [], [], []⟩

/-- Empty declared state. -/
def lclEmpty : GoliacLocal := ⟨[], [], [], [], []⟩

/-- Empty live state (non-enterprise). -/
def remoteEmpty : GoliacRemote := ⟨[], [], [], [], [], false⟩

/-- Live state with the single org member `ghX` (non-enterprise). -/
def remoteOneUser : GoliacRemote := ⟨["ghX"], [], [], [], [], false⟩

/-- Configuration: everyone-team disabled, no ruleset entries, all
destructive gates off. -/
def cfgAllFalse : RepositoryConfig := ⟨false, [], ⟨false, false, false, false⟩⟩

/-- Configuration: everyone-team disabled, no ruleset entries, all
destructive gates on. -/
def cfgAllTrue : RepositoryConfig := ⟨false, [], ⟨true, true, true, true⟩⟩

/-- Reconciliator with executor attached and all destructive gates off. -/
def recGatesOff : Reconciliator := ⟨true, cfgAllFalse, fun _ => none⟩

/-- Reconciliator with executor attached and all destructive gates on. -/
def recGatesOn : Reconciliator := ⟨true, cfgAllTrue, fun _ => none⟩

/-! ## Claim theorems -/

/-- C1 (code bug): in the users pass, for the declared user
`{alice: ghAlice}` against empty live users, the engine does NOT emit
`AddUserToOrg(ghAlice)`: it emits `AddUserToOrg("")` — the Go zero value
bound by the failed lookup `user, ok := rUsers[lUser.Spec.GithubID]` is
passed instead of the declared external identifier — and the mirror's user
set afterwards is `{""}`, not `{ghAlice}`. -/
theorem C1_users_pass_emits_empty_id :
    (recGatesOff.reconciliateUsers lclAlice false ⟨remoteEmpty, [], []⟩).1.mirrorOps
        = [Op.addUserToOrg ""] ∧
    (recGatesOff.reconciliateUsers lclAlice false ⟨remoteEmpty, [], []⟩).1.mirror.users
        = [""] ∧
    (recGatesOff.reconciliateUsers lclAlice false ⟨remoteEmpty, [], []⟩).1.execCalls
        = [⟨false, Op.addUserToOrg ""⟩] := by
  refine ⟨by decide, by decide, by decide⟩

/-- C2 (code bug): reconciliation is not idempotent.  With declared state
`{alice: ghAlice}` and empty live state, the first run forwards
`AddUserToOrg("")` (the C1 bug); an executor that faithfully applies every
forwarded mutation yields exactly the engine's own mirror as the new live
state (all gates are on and every mutation is forwarded).  The second run
against that state forwards `AddUserToOrg("")` and `RemoveUserFromOrg("")`
— two mutations, not zero. -/
theorem C2_second_run_emits_mutations :
    (recGatesOn.Reconciliate lclAlice remoteEmpty "teams" false).state.execCalls.map
        ExecCall.op = [Op.addUserToOrg ""] ∧
    (recGatesOn.Reconciliate lclAlice
        (recGatesOn.Reconciliate lclAlice remoteEmpty "teams" false).state.mirror
        "teams" false).state.execCalls.map ExecCall.op
      = [Op.addUserToOrg "", Op.removeUserFromOrg ""] ∧
    (recGatesOn.Reconciliate lclAlice
        (recGatesOn.Reconciliate lclAlice remoteEmpty "teams" false).state.mirror
        "teams" false).state.execCalls ≠ [] := by
  refine ⟨by decide, by decide, by decide⟩

/-- C3 (counterexample): with every destructive gate off, live user `ghX`
and empty declared state, no operation is forwarded to the executor — but
the mirror does NOT retain the user: `RemoveUserFromOrg` updates the mirror
even when gated, so the mirror's user set afterwards is empty. -/
theorem C3_counterexample :
    (recGatesOff.Reconciliate lclEmpty remoteOneUser "teams" false).state.execCalls = [] ∧
    (recGatesOff.Reconciliate lclEmpty remoteOneUser "teams" false).state.mirror.users
        = [] := by
  refine ⟨by decide, by decide⟩

/-- C8 (counterexample): a reachable scheduler state with TWO callers
simultaneously blocked in the lobby wait loop, refuting "at most one
further call waits in the lobby".  Trace: caller R enters and runs; caller
W enters the lobby; R exits (clearing `applyLobby` and signalling W);
before W re-acquires the mutex, caller Y enters, finds `applyLobby` clear
and `applyCurrent` set, takes the lobby slot and waits — now W (re-waiting,
since `applyLobby` is set again) and Y are both blocked. -/
theorem C8_counterexample :
    SchedReachable ⟨true, true, 0, 2⟩ := by
  have t1 : SchedStepAny schedInit ⟨true, false, 1, 0⟩ :=
    ⟨.enterRun, SchedStep.enterRun _ rfl rfl⟩
  have t2 : SchedStepAny ⟨true, false, 1, 0⟩ ⟨true, true, 1, 1⟩ :=
    ⟨.enterWait, SchedStep.enterWait _ rfl rfl⟩
  have t3 : SchedStepAny ⟨true, true, 1, 1⟩ ⟨true, false, 0, 1⟩ :=
    ⟨.exitRun, SchedStep.exitRun _ (by decide)⟩
  have t4 : SchedStepAny ⟨true, false, 0, 1⟩ ⟨true, true, 0, 2⟩ :=
    ⟨.enterWait, SchedStep.enterWait _ rfl rfl⟩
  exact .tail (.tail (.tail (.tail .refl t1) t2) t3) t4

/-- C8 (amended): in every reachable scheduler state at most ONE
reconciliation executes at a time and at most TWO callers are blocked
waiting in the lobby (not one, see the counterexample); while the lobby
flag is set, an arriving call can only take the `enterSkip` step — it
returns immediately as skipped (`nil` error, `applied=false`) without
running a reconciliation. -/
theorem C8_single_flight (s : SchedState) (h : SchedReachable s) :
    s.nRunning ≤ 1 ∧ s.nWaiting ≤ 2 ∧
    (s.lobby = true →
      (∀ s', ¬ SchedStep s SchedLabel.enterRun s') ∧
      (∀ s', ¬ SchedStep s SchedLabel.enterWait s') ∧
      SchedStep s SchedLabel.enterSkip s) := by
  have hi := schedInv_reachable h
  refine ⟨?_, ?_, ?_⟩
  · cases hcur : s.current with
    | false => rw [(hi.1 hcur).1]; omega
    | true => rcases hi.2 hcur with h4 | h4 | h4 | h4 <;> omega
  · cases hcur : s.current with
    | false => rw [(hi.1 hcur).2.1]; omega
    | true => rcases hi.2 hcur with h4 | h4 | h4 | h4 <;> omega
  · intro hl
    refine ⟨?_, ?_, SchedStep.enterSkip s hl⟩
    · intro s' hstep
      cases hstep with
      | enterRun hl2 hc => rw [hl] at hl2; exact Bool.noConfusion hl2
    · intro s' hstep
      cases hstep with
      | enterWait hl2 hc => rw [hl] at hl2; exact Bool.noConfusion hl2

/-- Witness for `C8_single_flight` at the reachable state with the lobby
flag set and one runner and one waiter. -/
theorem C8_single_flight_witness :
    SchedReachable ⟨true, true, 1, 1⟩ ∧
    ((1 : Nat) ≤ 1 ∧ (1 : Nat) ≤ 2 ∧
      (true = true →
        (∀ s', ¬ SchedStep ⟨true, true, 1, 1⟩ SchedLabel.enterRun s') ∧
        (∀ s', ¬ SchedStep ⟨true, true, 1, 1⟩ SchedLabel.enterWait s') ∧
        SchedStep ⟨true, true, 1, 1⟩ SchedLabel.enterSkip ⟨true, true, 1, 1⟩)) := by
  have t1 : SchedStepAny schedInit ⟨true, false, 1, 0⟩ :=
    ⟨.enterRun, SchedStep.enterRun _ rfl rfl⟩
  have t2 : SchedStepAny ⟨true, false, 1, 0⟩ ⟨true, true, 1, 1⟩ :=
    ⟨.enterWait, SchedStep.enterWait _ rfl rfl⟩
  have hreach : SchedReachable ⟨true, true, 1, 1⟩ := .tail (.tail .refl t1) t2
  exact ⟨hreach, C8_single_flight _ hreach⟩

/-! ## The transaction envelope and pass errors (C4, C9, C5) -/

theorem reconciliateUsers_err (r : Reconciliator) (lcl : GoliacLocal) (d : Bool)
    (s : RState) : (r.reconciliateUsers lcl d s).2 = none := rfl

theorem reconciliateTeams_err (r : Reconciliator) (lcl : GoliacLocal) (d : Bool)
    (s : RState) : (r.reconciliateTeams lcl d s).2 = none := rfl

theorem reconciliateRepositories_err (r : Reconciliator) (lcl : GoliacLocal) (trn : String)
    (d : Bool) (s : RState) : (r.reconciliateRepositories lcl trn d s).2 = none := rfl

theorem reconciliateRulesets_err (r : Reconciliator) (lcl : GoliacLocal)
    (conf : RepositoryConfig) (d : Bool) (s : RState) :
    (r.reconciliateRulesets lcl conf d s).2
      = (match r.buildLgrs lcl [] conf.Rulesets with
         | .error e => some e
         | .ok _ => none) := by
  rcases hb : r.buildLgrs lcl [] conf.Rulesets with e | lg <;>
    simp [Reconciliator.reconciliateRulesets, hb]

/-- C4 (confirmed): every reconciliation's envelope is `Begin` exactly once,
followed — after the passes — by exactly one of `Rollback(err)` (when the
run's returned error is `some err`) or `Commit` (when it is `none`). -/
theorem C4_transaction_envelope (r : Reconciliator) (lcl : GoliacLocal)
    (remote : GoliacRemote) (trn : String) (d : Bool) :
    (r.Reconciliate lcl remote trn d).envelope =
      EnvEvent.begin d ::
        (match (r.Reconciliate lcl remote trn d).err with
         | some e => [EnvEvent.rollback d e]
         | none => [EnvEvent.commit d]) := by
  by_cases he : remote.enterprise = true
  · rcases hb : r.buildLgrs lcl [] r.repoconfig.Rulesets with e | lg <;>
      simp [Reconciliator.Reconciliate, reconciliateUsers_err, reconciliateTeams_err,
        reconciliateRepositories_err, reconciliateRulesets_err, he, hb]
  · rw [Bool.not_eq_true] at he
    simp [Reconciliator.Reconciliate, reconciliateUsers_err, reconciliateTeams_err,
      reconciliateRepositories_err, he]

/-- C9 (confirmed): the users, teams and repositories passes always return
`nil`; the returned error of a reconciliation is exactly the rulesets
pass's error when the remote is enterprise (and `none` otherwise), so only
the rulesets pass can trigger `Rollback`; on a non-enterprise remote the
run always ends with `Commit`. -/
theorem C9_only_rulesets_can_fail (r : Reconciliator) (lcl : GoliacLocal)
    (remote : GoliacRemote) (trn : String) (d : Bool) (s : RState) :
    (r.reconciliateUsers lcl d s).2 = none ∧
    (r.reconciliateTeams lcl d s).2 = none ∧
    (r.reconciliateRepositories lcl trn d s).2 = none ∧
    (r.Reconciliate lcl remote trn d).err
      = (if remote.enterprise then r.rulesetsPassErr lcl else none) ∧
    (r.Reconciliate lcl { remote with enterprise := false } trn d).envelope
      = [EnvEvent.begin d, EnvEvent.commit d] := by
  refine ⟨rfl, rfl, rfl, ?_, ?_⟩
  · by_cases he : remote.enterprise = true
    · rcases hb : r.buildLgrs lcl [] r.repoconfig.Rulesets with e | lg <;>
        simp [Reconciliator.Reconciliate, reconciliateUsers_err, reconciliateTeams_err,
          reconciliateRepositories_err, reconciliateRulesets_err,
          Reconciliator.rulesetsPassErr, he, hb]
    · rw [Bool.not_eq_true] at he
      simp [Reconciliator.Reconciliate, reconciliateUsers_err, reconciliateTeams_err,
        reconciliateRepositories_err, he]
  · simp [Reconciliator.Reconciliate, reconciliateUsers_err, reconciliateTeams_err,
      reconciliateRepositories_err]

theorem buildLgrs_error_iff (r : Reconciliator) (lcl : GoliacLocal)
    (cs : List ConfRuleset) :
    ∀ acc, (∃ e, r.buildLgrs lcl acc cs = .error e) ↔
      ∃ c ∈ cs, r.compile c.Pattern = none ∨ alookup c.Ruleset lcl.rulesets = none := by
  induction cs with
  | nil => intro acc; simp [Reconciliator.buildLgrs]
  | cons c rest ih =>
    intro acc
    rcases hc : r.compile c.Pattern with _ | m
    · simp only [Reconciliator.buildLgrs, hc]
      constructor
      · intro _; exact ⟨c, List.mem_cons_self c rest, Or.inl hc⟩
      · intro _; exact ⟨RecError.invalidRulesetPattern c.Pattern, rfl⟩
    · rcases hrs : alookup c.Ruleset lcl.rulesets with _ | rs
      · simp only [Reconciliator.buildLgrs, hc, hrs]
        constructor
        · intro _; exact ⟨c, List.mem_cons_self c rest, Or.inr hrs⟩
        · intro _; exact ⟨RecError.unknownRuleset c.Ruleset, rfl⟩
      · simp only [Reconciliator.buildLgrs, hc, hrs]
        rw [ih]
        constructor
        · rintro ⟨c', hmem, hbad⟩
          exact ⟨c', List.mem_cons_of_mem c hmem, hbad⟩
        · rintro ⟨c', hmem, hbad⟩
          rcases List.mem_cons.mp hmem with heq | hmem'
          · subst heq
            rcases hbad with hbad | hbad
            · rw [hc] at hbad; exact absurd hbad (by simp)
            · rw [hrs] at hbad; exact absurd hbad (by simp)
          · exact ⟨c', hmem', hbad⟩

/-- C5 (confirmed): the rulesets pass returns an error iff some configured
`(pattern, ruleset)` entry has an uncompilable pattern or references an
undefined ruleset; in that case the pass leaves the state untouched (no
ruleset operation emitted, no executor call, no mirror change), and on an
enterprise remote the reconciliation ends with `Rollback` carrying that
error, which is also the returned error. -/
theorem C5_rulesets_pass_errors (r : Reconciliator) (lcl : GoliacLocal)
    (conf : RepositoryConfig) (d : Bool) (s : RState) (remote : GoliacRemote)
    (trn : String) :
    ((r.reconciliateRulesets lcl conf d s).2 ≠ none ↔
      ∃ c ∈ conf.Rulesets,
        r.compile c.Pattern = none ∨ alookup c.Ruleset lcl.rulesets = none) ∧
    (∀ e, (r.reconciliateRulesets lcl conf d s).2 = some e →
      (r.reconciliateRulesets lcl conf d s).1 = s) ∧
    (∀ e, remote.enterprise = true → r.rulesetsPassErr lcl = some e →
      (r.Reconciliate lcl remote trn d).envelope
          = [EnvEvent.begin d, EnvEvent.rollback d e] ∧
      (r.Reconciliate lcl remote trn d).err = some e) := by
  refine ⟨?_, ?_, ?_⟩
  · rw [← buildLgrs_error_iff r lcl conf.Rulesets []]
    rcases hb : r.buildLgrs lcl [] conf.Rulesets with e | lg <;>
      simp [Reconciliator.reconciliateRulesets, hb]
  · intro e he
    rcases hb : r.buildLgrs lcl [] conf.Rulesets with e' | lg
    · simp [Reconciliator.reconciliateRulesets, hb]
    · simp [Reconciliator.reconciliateRulesets, hb] at he
  · intro e hent herr
    rcases hb : r.buildLgrs lcl [] r.repoconfig.Rulesets with e' | lg
    · have he' : e' = e := by
        simp [Reconciliator.rulesetsPassErr, hb] at herr
        exact herr
      subst he'
      constructor <;>
        simp [Reconciliator.Reconciliate, reconciliateUsers_err, reconciliateTeams_err,
          reconciliateRepositories_err, reconciliateRulesets_err, hent, hb]
    · simp [Reconciliator.rulesetsPassErr, hb] at herr

/-- Configuration whose single ruleset entry has the unparsable pattern
`"("`. -/
def cfgBadRuleset : RepositoryConfig := ⟨false, [⟨"(", "rs1"⟩], ⟨false, false, false, false⟩⟩

/-- Reconciliator whose `regexp.Compile` rejects every pattern (so the
`"("` entry fails to compile, as in Go). -/
def recBadRuleset : Reconciliator := ⟨true, cfgBadRuleset, fun _ => none⟩

/-- Empty enterprise live state. -/
def remoteEnterprise : GoliacRemote := ⟨[], [], [], [], [], true⟩

/-- Witness for `C5_rulesets_pass_errors`: the bad entry `("(", rs1)` makes
the pass fail and the enterprise reconciliation roll back with that error. -/
theorem C5_rulesets_pass_errors_witness :
    recBadRuleset.rulesetsPassErr lclEmpty
        = some (RecError.invalidRulesetPattern "(") ∧
    (recBadRuleset.Reconciliate lclEmpty remoteEnterprise "teams" false).envelope
        = [EnvEvent.begin false,
           EnvEvent.rollback false (RecError.invalidRulesetPattern "(")] ∧
    (recBadRuleset.Reconciliate lclEmpty remoteEnterprise "teams" false).err
        = some (RecError.invalidRulesetPattern "(") := by
  have h := (C5_rulesets_pass_errors recBadRuleset lclEmpty cfgBadRuleset false
      ⟨remoteEnterprise, [], []⟩ remoteEnterprise "teams").2.2
      (RecError.invalidRulesetPattern "(") (by decide) (by decide)
  exact ⟨by decide, h.1, h.2⟩

/-- C10 (confirmed): a declared repository is in a ruleset's comparable
repository list iff the compiled pattern matches anywhere inside the slug
of its name (Go's `regexp.Match` is unanchored), so an unanchored pattern
such as `"svc-"` also selects a repository named `"my-svc-x"` (see the
witness). -/
theorem C10_ruleset_unanchored_match (m : List Char → Bool)
    (repos : List (String × Repository)) (rn : String) (v : Repository)
    (h : (rn, v) ∈ repos) :
    slugMake rn ∈ rulesetRepositories m repos ↔ goMatch m (slugMake rn) = true := by
  constructor
  · intro hm
    rw [rulesetRepositories] at hm
    rcases List.mem_map.mp hm with ⟨p, hp, hslug⟩
    rcases List.mem_filter.mp hp with ⟨_, hmatch⟩
    rw [← hslug]
    exact hmatch
  · intro hm
    rw [rulesetRepositories]
    exact List.mem_map.mpr ⟨(rn, v), List.mem_filter.mpr ⟨h, hm⟩, rfl⟩

/-! ## The external-user cross-check of the repositories pass (C6) -/

/-- The operations `repoOnChanged` emits, as a pure list, segment by
segment in source order. -/
def rocOps (rn : String) (l rr : GithubRepoComparable) : List Op :=
  (if l.IsPublic ≠ rr.IsPublic then [.updateRepositoryUpdatePrivate rn (!l.IsPublic)] else [])
  ++ (if l.IsArchived ≠ rr.IsArchived then
        [.updateRepositoryUpdateArchived rn l.IsArchived] else [])
  ++ (let pR := StringArrayEquivalent l.Readers rr.Readers
      if pR.1 = false then
        pR.2.2.map (fun t => Op.updateRepositoryAddTeamAccess rn t "pull")
        ++ pR.2.1.map (fun t => Op.updateRepositoryRemoveTeamAccess rn t)
      else [])
  ++ (let pW := StringArrayEquivalent l.Writers rr.Writers
      if pW.1 = false then
        pW.2.2.map (fun t => Op.updateRepositoryAddTeamAccess rn t "push")
        ++ pW.2.1.map (fun t => Op.updateRepositoryRemoveTeamAccess rn t)
      else [])
  ++ (let eR := StringArrayEquivalent l.ExternalUserReaders rr.ExternalUserReaders
      let eW := StringArrayEquivalent l.ExternalUserWriters rr.ExternalUserWriters
      if eR.1 = false then
        eR.2.1.flatMap (fun u => if eW.2.2.contains u then []
          else [Op.updateRepositoryRemoveExternalUser rn u])
        ++ eR.2.2.map (fun u => Op.updateRepositorySetExternalUser rn u "pull")
      else [])
  ++ (let eR := StringArrayEquivalent l.ExternalUserReaders rr.ExternalUserReaders
      let eW := StringArrayEquivalent l.ExternalUserWriters rr.ExternalUserWriters
      if eW.1 = false then
        eW.2.1.flatMap (fun u => if eR.2.2.contains u then []
          else [Op.updateRepositoryRemoveExternalUser rn u])
        ++ eW.2.2.map (fun u => Op.updateRepositorySetExternalUser rn u "push")
      else [])

theorem flatMap_singleton_eq_map {α β : Type} (f : α → β) (xs : List α) :
    (xs.flatMap fun a => [f a]) = xs.map f := by
  induction xs with
  | nil => rfl
  | cons x rest ih => simp [List.flatMap_cons, ih]

theorem foldl_ops {α : Type} (f : RState → α → RState) (g : α → List Op)
    (H : ∀ st a, (f st a).mirrorOps = st.mirrorOps ++ g a) :
    ∀ (xs : List α) (st : RState),
      (xs.foldl f st).mirrorOps = st.mirrorOps ++ xs.flatMap g := by
  intro xs
  induction xs with
  | nil => intro st; simp
  | cons x rest ih =>
    intro st
    rw [List.foldl_cons, ih, H]
    simp

theorem mirrorOps_foldl_addTeam (r : Reconciliator) (d : Bool) (rn perm : String)
    (xs : List String) (st : RState) :
    (xs.foldl (fun st2 t => r.UpdateRepositoryAddTeamAccess d st2 rn t perm) st).mirrorOps
      = st.mirrorOps ++ xs.map (fun t => Op.updateRepositoryAddTeamAccess rn t perm) := by
  rw [foldl_ops _ (fun t => [Op.updateRepositoryAddTeamAccess rn t perm]) (fun _ _ => rfl)]
  rw [flatMap_singleton_eq_map]

theorem mirrorOps_foldl_removeTeam (r : Reconciliator) (d : Bool) (rn : String)
    (xs : List String) (st : RState) :
    (xs.foldl (fun st2 t => r.UpdateRepositoryRemoveTeamAccess d st2 rn t) st).mirrorOps
      = st.mirrorOps ++ xs.map (fun t => Op.updateRepositoryRemoveTeamAccess rn t) := by
  rw [foldl_ops _ (fun t => [Op.updateRepositoryRemoveTeamAccess rn t]) (fun _ _ => rfl)]
  rw [flatMap_singleton_eq_map]

theorem mirrorOps_foldl_setExternal (r : Reconciliator) (d : Bool) (rn perm : String)
    (xs : List String) (st : RState) :
    (xs.foldl (fun st2 u => r.UpdateRepositorySetExternalUser d st2 rn u perm) st).mirrorOps
      = st.mirrorOps ++ xs.map (fun u => Op.updateRepositorySetExternalUser rn u perm) := by
  rw [foldl_ops _ (fun u => [Op.updateRepositorySetExternalUser rn u perm]) (fun _ _ => rfl)]
  rw [flatMap_singleton_eq_map]

theorem mirrorOps_foldl_removeExternal (r : Reconciliator) (d : Bool) (rn : String)
    (cond : List String) (xs : List String) (st : RState) :
    (xs.foldl (fun st2 u => if cond.contains u then st2
        else r.UpdateRepositoryRemoveExternalUser d st2 rn u) st).mirrorOps
      = st.mirrorOps ++ xs.flatMap (fun u => if cond.contains u then []
          else [Op.updateRepositoryRemoveExternalUser rn u]) := by
  refine foldl_ops _ _ ?_ xs st
  intro st2 u
  by_cases hc : u ∈ cond <;>
    simp [hc, Reconciliator.UpdateRepositoryRemoveExternalUser, mstep]

theorem mirrorOps_foldl_removeExternal_mem (r : Reconciliator) (d : Bool) (rn : String)
    (cond : List String) (xs : List String) (st : RState) :
    (xs.foldl (fun st2 u => if u ∈ cond then st2
        else r.UpdateRepositoryRemoveExternalUser d st2 rn u) st).mirrorOps
      = st.mirrorOps ++ xs.flatMap (fun u => if u ∈ cond then []
          else [Op.updateRepositoryRemoveExternalUser rn u]) := by
  refine foldl_ops _ _ ?_ xs st
  intro st2 u
  by_cases hc : u ∈ cond <;>
    simp [hc, Reconciliator.UpdateRepositoryRemoveExternalUser, mstep]

theorem repoOnChanged_mirrorOps (r : Reconciliator) (d : Bool) (s : RState)
    (rn : String) (l rr : GithubRepoComparable) :
    (r.repoOnChanged d s rn l rr).mirrorOps = s.mirrorOps ++ rocOps rn l rr := by
  unfold Reconciliator.repoOnChanged Reconciliator.repoChangedTeamsStage
    Reconciliator.repoChangedExtStage rocOps
  by_cases h1 : l.IsPublic ≠ rr.IsPublic <;>
  by_cases h2 : l.IsArchived ≠ rr.IsArchived <;>
  by_cases h3 : (StringArrayEquivalent l.Readers rr.Readers).1 = false <;>
  by_cases h4 : (StringArrayEquivalent l.Writers rr.Writers).1 = false <;>
  by_cases h5 : (StringArrayEquivalent l.ExternalUserReaders rr.ExternalUserReaders).1
      = false <;>
  by_cases h6 : (StringArrayEquivalent l.ExternalUserWriters rr.ExternalUserWriters).1
      = false <;>
  simp [h1, h2, h3, h4, h5, h6, mirrorOps_foldl_addTeam, mirrorOps_foldl_removeTeam,
    mirrorOps_foldl_setExternal, mirrorOps_foldl_removeExternal,
    mirrorOps_foldl_removeExternal_mem,
    Reconciliator.UpdateRepositoryUpdatePrivate, Reconciliator.UpdateRepositoryUpdateArchived,
    mstep, List.append_assoc]

/-- C6 (confirmed): in the changed-repository handler of the repositories
pass, an external principal that is both in the readers-to-remove set and
the writers-to-add set (or both in the writers-to-remove set and the
readers-to-add set) gets NO `UpdateRepositoryRemoveExternalUser`; instead
`UpdateRepositorySetExternalUser` with the new permission (`"push"` resp.
`"pull"`) is emitted.  The first conjunct ties the pure operation list
`rocOps` to the mediator-threaded handler `repoOnChanged`. -/
theorem C6_external_user_cross_check (r : Reconciliator) (d : Bool) (s : RState)
    (rn : String) (l rr : GithubRepoComparable) (x : String) :
    ((r.repoOnChanged d s rn l rr).mirrorOps = s.mirrorOps ++ rocOps rn l rr) ∧
    (x ∈ (StringArrayEquivalent l.ExternalUserReaders rr.ExternalUserReaders).2.1 →
      x ∈ (StringArrayEquivalent l.ExternalUserWriters rr.ExternalUserWriters).2.2 →
        Op.updateRepositoryRemoveExternalUser rn x ∉ rocOps rn l rr ∧
        Op.updateRepositorySetExternalUser rn x "push" ∈ rocOps rn l rr) ∧
    (x ∈ (StringArrayEquivalent l.ExternalUserWriters rr.ExternalUserWriters).2.1 →
      x ∈ (StringArrayEquivalent l.ExternalUserReaders rr.ExternalUserReaders).2.2 →
        Op.updateRepositoryRemoveExternalUser rn x ∉ rocOps rn l rr ∧
        Op.updateRepositorySetExternalUser rn x "pull" ∈ rocOps rn l rr) := by
  refine ⟨repoOnChanged_mirrorOps r d s rn l rr, ?_, ?_⟩
  · intro hRrem hWadd
    have h5 : (StringArrayEquivalent l.ExternalUserReaders rr.ExternalUserReaders).1
        = false := StringArrayEquivalent_false_of_mem_toRemove hRrem
    have h6 : (StringArrayEquivalent l.ExternalUserWriters rr.ExternalUserWriters).1
        = false := StringArrayEquivalent_false_of_mem_toAdd hWadd
    have hnotWrem : x ∉ (StringArrayEquivalent l.ExternalUserWriters
        rr.ExternalUserWriters).2.1 := toAdd_toRemove_disjoint hWadd
    have hcontains : (StringArrayEquivalent l.ExternalUserWriters
        rr.ExternalUserWriters).2.2.contains x = true :=
      List.elem_iff.mpr hWadd
    constructor
    · intro hmem
      simp only [rocOps, h5, h6, List.mem_append, List.mem_map, List.mem_flatMap,
        if_true, eq_self_iff_true] at hmem
      rcases hmem with ((((h | h) | h) | h) | h) | h
      · split at h <;> simp at h
      · split at h <;> simp at h
      · split at h <;> simp at h
      · split at h <;> simp at h
      · rcases h with ⟨u, hu, hop⟩ | ⟨u, hu, hop⟩
        · by_cases hcu : (StringArrayEquivalent l.ExternalUserWriters
              rr.ExternalUserWriters).2.2.contains u
          · rw [if_pos hcu] at hop; simp at hop
          · rw [if_neg hcu] at hop
            simp only [List.mem_singleton] at hop
            rcases hop with hop
            injection hop with _ hux
            subst hux
            exact hcu hcontains
        · simp at hop
      · rcases h with ⟨u, hu, hop⟩ | ⟨u, hu, hop⟩
        · by_cases hcu : (StringArrayEquivalent l.ExternalUserReaders
              rr.ExternalUserReaders).2.2.contains u
          · rw [if_pos hcu] at hop; simp at hop
          · rw [if_neg hcu] at hop
            simp only [List.mem_singleton] at hop
            rcases hop with hop
            injection hop with _ hux
            subst hux
            exact hnotWrem hu
        · simp at hop
    · simp only [rocOps, List.mem_append]
      refine Or.inr ?_
      rw [if_pos h6]
      exact List.mem_append_right _ (List.mem_map.mpr ⟨x, hWadd, rfl⟩)
  · intro hWrem hRadd
    have h5 : (StringArrayEquivalent l.ExternalUserReaders rr.ExternalUserReaders).1
        = false := StringArrayEquivalent_false_of_mem_toAdd hRadd
    have h6 : (StringArrayEquivalent l.ExternalUserWriters rr.ExternalUserWriters).1
        = false := StringArrayEquivalent_false_of_mem_toRemove hWrem
    have hnotRrem : x ∉ (StringArrayEquivalent l.ExternalUserReaders
        rr.ExternalUserReaders).2.1 := toAdd_toRemove_disjoint hRadd
    have hcontains : (StringArrayEquivalent l.ExternalUserReaders
        rr.ExternalUserReaders).2.2.contains x = true :=
      List.elem_iff.mpr hRadd
    constructor
    · intro hmem
      simp only [rocOps, h5, h6, List.mem_append, List.mem_map, List.mem_flatMap,
        if_true, eq_self_iff_true] at hmem
      rcases hmem with ((((h | h) | h) | h) | h) | h
      · split at h <;> simp at h
      · split at h <;> simp at h
      · split at h <;> simp at h
      · split at h <;> simp at h
      · rcases h with ⟨u, hu, hop⟩ | ⟨u, hu, hop⟩
        · by_cases hcu : (StringArrayEquivalent l.ExternalUserWriters
              rr.ExternalUserWriters).2.2.contains u
          · rw [if_pos hcu] at hop; simp at hop
          · rw [if_neg hcu] at hop
            simp only [List.mem_singleton] at hop
            rcases hop with hop
            injection hop with _ hux
            subst hux
            exact hnotRrem hu
        · simp at hop
      · rcases h with ⟨u, hu, hop⟩ | ⟨u, hu, hop⟩
        · by_cases hcu : (StringArrayEquivalent l.ExternalUserReaders
              rr.ExternalUserReaders).2.2.contains u
          · rw [if_pos hcu] at hop; simp at hop
          · rw [if_neg hcu] at hop
            simp only [List.mem_singleton] at hop
            rcases hop with hop
            injection hop with _ hux
            subst hux
            exact hcu hcontains
        · simp at hop
    · simp only [rocOps, List.mem_append]
      refine Or.inl (Or.inr ?_)
      rw [if_pos h5]
      exact List.mem_append_right _ (List.mem_map.mpr ⟨x, hRadd, rfl⟩)

/-- Witness for `C6_external_user_cross_check`: live external reader `xu`
promoted to declared external writer — the change set is readers-to-remove
`[xu]`, writers-to-add `[xu]`; only `UpdateRepositorySetExternalUser(repo,
xu, "push")` is emitted. -/
theorem C6_external_user_cross_check_witness :
    "xu" ∈ (StringArrayEquivalent ([] : List String) ["xu"]).2.1 ∧
    "xu" ∈ (StringArrayEquivalent ["xu"] ([] : List String)).2.2 ∧
    (Op.updateRepositoryRemoveExternalUser "repo" "xu"
        ∉ rocOps "repo" ⟨true, false, [], [], [], ["xu"]⟩ ⟨true, false, [], [], ["xu"], []⟩ ∧
      Op.updateRepositorySetExternalUser "repo" "xu" "push"
        ∈ rocOps "repo" ⟨true, false, [], [], [], ["xu"]⟩ ⟨true, false, [], [], ["xu"], []⟩) := by
  refine ⟨by decide, by decide, ?_⟩
  exact (C6_external_user_cross_check recGatesOff false ⟨remoteEmpty, [], []⟩ "repo"
    ⟨true, false, [], [], [], ["xu"]⟩ ⟨true, false, [], [], ["xu"], []⟩ "xu").2.1
    (by decide) (by decide)

/-! ## Preservation infrastructure for the whole-run invariants (C3, C7) -/

theorem foldl_preserves {α β : Type} (P : β → Prop) (f : β → α → β)
    (H : ∀ b a, P b → P (f b a)) :
    ∀ (xs : List α) (b : β), P b → P (xs.foldl f b) := by
  intro xs
  induction xs with
  | nil => intro b hb; exact hb
  | cons x rest ih => intro b hb; exact ih _ (H b x hb)

theorem foldl_rel {α β γ : Type} (R : β → γ → Prop) (f : β → α → β) (g : γ → α → γ)
    (H : ∀ b c a, R b c → R (f b a) (g c a)) :
    ∀ (xs : List α) (b : β) (c : γ), R b c → R (xs.foldl f b) (xs.foldl g c) := by
  intro xs
  induction xs with
  | nil => intro b c h; exact h
  | cons x rest ih => intro b c h; exact ih _ _ (H b c x h)

theorem CompareEntities_preserves {α : Type} (P : RState → Prop)
    (lents rents : List (String × α)) (equiv : α → α → Bool)
    (oa orm : RState → String → α → RState) (oc : RState → String → α → α → RState)
    (HA : ∀ st k v, P st → P (oa st k v))
    (HR : ∀ st k v, P st → P (orm st k v))
    (HC : ∀ st k v w, P st → P (oc st k v w))
    (st : RState) (h : P st) :
    P (CompareEntities st lents rents equiv oa orm oc) := by
  unfold CompareEntities
  refine foldl_preserves P _ ?_ rents _ (foldl_preserves P _ ?_ lents st h)
  · intro b p hb
    rcases hq : alookup p.1 lents with _ | v
    · simp only [hq]; exact HR b p.1 p.2 hb
    · simp only [hq]; exact hb
  · intro b p hb
    rcases hq : alookup p.1 rents with _ | v
    · simp only [hq]; exact HA b p.1 p.2 hb
    · simp only [hq]
      by_cases he : equiv p.2 v = true
      · simp only [he, if_true]; exact hb
      · rw [if_neg he]; exact HC b p.1 p.2 v hb

theorem CompareEntities_rel {α : Type} (R : RState → RState → Prop)
    (lents rents : List (String × α)) (equiv : α → α → Bool)
    (oa orm : RState → String → α → RState) (oc : RState → String → α → α → RState)
    (oa' orm' : RState → String → α → RState) (oc' : RState → String → α → α → RState)
    (HA : ∀ st st' k v, R st st' → R (oa st k v) (oa' st' k v))
    (HR : ∀ st st' k v, R st st' → R (orm st k v) (orm' st' k v))
    (HC : ∀ st st' k v w, R st st' → R (oc st k v w) (oc' st' k v w))
    (st st' : RState) (h : R st st') :
    R (CompareEntities st lents rents equiv oa orm oc)
      (CompareEntities st' lents rents equiv oa' orm' oc') := by
  unfold CompareEntities
  refine foldl_rel R _ _ ?_ rents _ _ (foldl_rel R _ _ ?_ lents st st' h)
  · intro b c p hb
    rcases hq : alookup p.1 lents with _ | v
    · simp only [hq]; exact HR b c p.1 p.2 hb
    · simp only [hq]; exact hb
  · intro b c p hb
    rcases hq : alookup p.1 rents with _ | v
    · simp only [hq]; exact HA b c p.1 p.2 hb
    · simp only [hq]
      by_cases he : equiv p.2 v = true
      · rw [if_pos he, if_pos he]; exact hb
      · rw [if_neg he, if_neg he]; exact HC b c p.1 p.2 v hb

/-- Key retention: every team slug of `tk` and repository name of `rk` is
still a key of the mirror's team resp. repository map. -/
def KeysPres (tk rk : List String) (m : GoliacRemote) : Prop :=
  (∀ t ∈ tk, t ∈ akeys m.teams) ∧ (∀ q ∈ rk, q ∈ akeys m.repositories)

theorem setTeamRepoPerm_teams (w rn p : String) (m : GoliacRemote) :
    (setTeamRepoPerm w rn p m).teams = m.teams := rfl

theorem setTeamRepoPerm_repositories (w rn p : String) (m : GoliacRemote) :
    (setTeamRepoPerm w rn p m).repositories = m.repositories := rfl

theorem foldl_setTeamRepoPerm_teams (rn p : String) (xs : List String) (m : GoliacRemote) :
    (xs.foldl (fun acc w => setTeamRepoPerm w rn p acc) m).teams = m.teams := by
  induction xs generalizing m with
  | nil => rfl
  | cons x rest ih => rw [List.foldl_cons, ih, setTeamRepoPerm_teams]

theorem foldl_setTeamRepoPerm_repositories (rn p : String) (xs : List String)
    (m : GoliacRemote) :
    (xs.foldl (fun acc w => setTeamRepoPerm w rn p acc) m).repositories
      = m.repositories := by
  induction xs generalizing m with
  | nil => rfl
  | cons x rest ih => rw [List.foldl_cons, ih, setTeamRepoPerm_repositories]

/-- Every mirror mutation except `deleteTeam` and `deleteRepository`
retains all existing team and repository keys. -/
theorem applyMirrorOp_keysPres (tk rk : List String) (m : GoliacRemote) (op : Op)
    (hnotDT : ∀ ts, op ≠ .deleteTeam ts) (hnotDR : ∀ rn, op ≠ .deleteRepository rn)
    (h : KeysPres tk rk m) : KeysPres tk rk (applyMirrorOp m op) := by
  cases op with
  | addUserToOrg id => exact h
  | removeUserFromOrg id => exact h
  | createTeam slugname description members =>
    exact ⟨fun t ht => mem_akeys_ainsert _ _ _ _ (h.1 t ht), h.2⟩
  | deleteTeam ts => exact absurd rfl (hnotDT ts)
  | updateTeamAddMember a b c =>
    refine ⟨fun t ht => ?_, h.2⟩
    simp only [applyMirrorOp, akeys_aupdate]
    exact h.1 t ht
  | updateTeamRemoveMember a b =>
    refine ⟨fun t ht => ?_, h.2⟩
    simp only [applyMirrorOp, akeys_aupdate]
    exact h.1 t ht
  | createRepository rn descr ws rs pub =>
    constructor
    · intro t ht
      simp only [applyMirrorOp, foldl_setTeamRepoPerm_teams]
      exact h.1 t ht
    · intro q hq
      simp only [applyMirrorOp, foldl_setTeamRepoPerm_repositories]
      exact mem_akeys_ainsert _ _ _ _ (h.2 q hq)
  | deleteRepository rn => exact absurd rfl (hnotDR rn)
  | updateRepositoryUpdatePrivate a b =>
    refine ⟨h.1, fun q hq => ?_⟩
    simp only [applyMirrorOp, akeys_aupdate]
    exact h.2 q hq
  | updateRepositoryUpdateArchived a b =>
    refine ⟨h.1, fun q hq => ?_⟩
    simp only [applyMirrorOp, akeys_aupdate]
    exact h.2 q hq
  | updateRepositoryAddTeamAccess a b c => exact h
  | updateRepositoryUpdateTeamAccess a b c => exact h
  | updateRepositoryRemoveTeamAccess a b => exact h
  | updateRepositorySetExternalUser a b c =>
    refine ⟨h.1, fun q hq => ?_⟩
    simp only [applyMirrorOp, akeys_aupdate]
    exact h.2 q hq
  | updateRepositoryRemoveExternalUser a b =>
    refine ⟨h.1, fun q hq => ?_⟩
    simp only [applyMirrorOp, akeys_aupdate]
    exact h.2 q hq
  | addRuleset x => exact h
  | updateRuleset x => exact h
  | deleteRuleset x => exact h

/-! ## Policy gating across a whole run (C3, amended) -/

/-- The invariant carried through a gates-off run: no destructive call has
been forwarded, and the mirror retains every tracked team and repository
key. -/
def C3P (tk rk : List String) (s : RState) : Prop :=
  (∀ c ∈ s.execCalls, ¬ DestructiveOp c.op) ∧ KeysPres tk rk s.mirror

theorem fwd_not_destructive (r : Reconciliator) (d : Bool) (op : Op)
    (hop : ¬ DestructiveOp op) : ∀ c ∈ r.fwd d op, ¬ DestructiveOp c.op := by
  intro c hc
  unfold Reconciliator.fwd at hc
  split at hc
  · simp only [List.mem_singleton] at hc
    subst hc
    exact hop
  · simp at hc

theorem applyMirrorOp_keysPres_single (tk rk : List String) (m : GoliacRemote) (op : Op)
    (hnotDT : ∀ ts, op ≠ .deleteTeam ts) (hnotDR : ∀ rn, op ≠ .deleteRepository rn)
    (h : KeysPres tk rk m) : KeysPres tk rk ([op].foldl applyMirrorOp m) :=
  applyMirrorOp_keysPres tk rk m op hnotDT hnotDR h

theorem C3P_mstep (tk rk : List String) (s : RState) (mOps : List Op)
    (eCalls : List ExecCall)
    (hOps : ∀ m, KeysPres tk rk m → KeysPres tk rk (mOps.foldl applyMirrorOp m))
    (hE : ∀ c ∈ eCalls, ¬ DestructiveOp c.op)
    (h : C3P tk rk s) : C3P tk rk (mstep s mOps eCalls) := by
  refine ⟨?_, hOps _ h.2⟩
  intro c hc
  simp only [mstep, List.mem_append] at hc
  rcases hc with hc | hc
  · exact h.1 c hc
  · exact hE c hc

theorem C3P_AddUserToOrg (tk rk : List String) (r : Reconciliator) (d : Bool)
    (s : RState) (id : String) (h : C3P tk rk s) : C3P tk rk (r.AddUserToOrg d s id) := by
  refine C3P_mstep tk rk s _ _ ?_ ?_ h
  · intro m hm
    exact applyMirrorOp_keysPres_single tk rk m _ (by intro ts; simp) (by intro rn; simp) hm
  · exact fwd_not_destructive r d _ (by simp [DestructiveOp])

theorem C3P_RemoveUserFromOrg (tk rk : List String) (r : Reconciliator) (d : Bool)
    (s : RState) (id : String)
    (hg : r.repoconfig.DestructiveOperations.AllowDestructiveUsers = false)
    (h : C3P tk rk s) : C3P tk rk (r.RemoveUserFromOrg d s id) := by
  refine C3P_mstep tk rk s _ _ ?_ ?_ h
  · intro m hm
    exact applyMirrorOp_keysPres_single tk rk m _ (by intro ts; simp) (by intro rn; simp) hm
  · simp [hg]

theorem C3P_CreateTeam (tk rk : List String) (r : Reconciliator) (d : Bool)
    (s : RState) (tn desc : String) (members : List String) (h : C3P tk rk s) :
    C3P tk rk (r.CreateTeam d s tn desc members) := by
  refine C3P_mstep tk rk s _ _ ?_ ?_ h
  · intro m hm
    exact applyMirrorOp_keysPres_single tk rk m _ (by intro ts; simp) (by intro rn; simp) hm
  · exact fwd_not_destructive r d _ (by simp [DestructiveOp])

theorem C3P_DeleteTeam (tk rk : List String) (r : Reconciliator) (d : Bool)
    (s : RState) (ts : String)
    (hg : r.repoconfig.DestructiveOperations.AllowDestructiveTeams = false)
    (h : C3P tk rk s) : C3P tk rk (r.DeleteTeam d s ts) := by
  simp only [Reconciliator.DeleteTeam, hg]
  simpa using h

theorem C3P_UpdateTeamAddMember (tk rk : List String) (r : Reconciliator) (d : Bool)
    (s : RState) (ts user role : String) (h : C3P tk rk s) :
    C3P tk rk (r.UpdateTeamAddMember d s ts user role) := by
  refine C3P_mstep tk rk s _ _ ?_ ?_ h
  · intro m hm
    exact applyMirrorOp_keysPres_single tk rk m _ (by intro ts2; simp) (by intro rn; simp) hm
  · exact fwd_not_destructive r d _ (by simp [DestructiveOp])

theorem C3P_UpdateTeamRemoveMember (tk rk : List String) (r : Reconciliator) (d : Bool)
    (s : RState) (ts user : String) (h : C3P tk rk s) :
    C3P tk rk (r.UpdateTeamRemoveMember d s ts user) := by
  refine C3P_mstep tk rk s _ _ ?_ ?_ h
  · intro m hm
    exact applyMirrorOp_keysPres_single tk rk m _ (by intro ts2; simp) (by intro rn; simp) hm
  · exact fwd_not_destructive r d _ (by simp [DestructiveOp])

theorem C3P_CreateRepository (tk rk : List String) (r : Reconciliator) (d : Bool)
    (s : RState) (rn desc : String) (ws rs : List String) (pub : Bool) (h : C3P tk rk s) :
    C3P tk rk (r.CreateRepository d s rn desc ws rs pub) := by
  refine C3P_mstep tk rk s _ _ ?_ ?_ h
  · intro m hm
    exact applyMirrorOp_keysPres_single tk rk m _ (by intro ts; simp) (by intro rn2; simp) hm
  · exact fwd_not_destructive r d _ (by simp [DestructiveOp])

theorem C3P_DeleteRepository (tk rk : List String) (r : Reconciliator) (d : Bool)
    (s : RState) (rn : String)
    (hg : r.repoconfig.DestructiveOperations.AllowDestructiveRepositories = false)
    (h : C3P tk rk s) : C3P tk rk (r.DeleteRepository d s rn) := by
  simp only [Reconciliator.DeleteRepository, hg]
  simpa using h

theorem C3P_UpdateRepositoryUpdatePrivate (tk rk : List String) (r : Reconciliator)
    (d : Bool) (s : RState) (rn : String) (b : Bool) (h : C3P tk rk s) :
    C3P tk rk (r.UpdateRepositoryUpdatePrivate d s rn b) := by
  refine C3P_mstep tk rk s _ _ ?_ ?_ h
  · intro m hm
    exact applyMirrorOp_keysPres_single tk rk m _ (by intro ts; simp) (by intro rn2; simp) hm
  · exact fwd_not_destructive r d _ (by simp [DestructiveOp])

theorem C3P_UpdateRepositoryUpdateArchived (tk rk : List String) (r : Reconciliator)
    (d : Bool) (s : RState) (rn : String) (b : Bool) (h : C3P tk rk s) :
    C3P tk rk (r.UpdateRepositoryUpdateArchived d s rn b) := by
  refine C3P_mstep tk rk s _ _ ?_ ?_ h
  · intro m hm
    exact applyMirrorOp_keysPres_single tk rk m _ (by intro ts; simp) (by intro rn2; simp) hm
  · exact fwd_not_destructive r d _ (by simp [DestructiveOp])

theorem C3P_UpdateRepositoryAddTeamAccess (tk rk : List String) (r : Reconciliator)
    (d : Bool) (s : RState) (rn ts perm : String) (h : C3P tk rk s) :
    C3P tk rk (r.UpdateRepositoryAddTeamAccess d s rn ts perm) := by
  refine C3P_mstep tk rk s _ _ ?_ ?_ h
  · intro m hm
    exact applyMirrorOp_keysPres_single tk rk m _ (by intro ts2; simp) (by intro rn2; simp) hm
  · exact fwd_not_destructive r d _ (by simp [DestructiveOp])

theorem C3P_UpdateRepositoryRemoveTeamAccess (tk rk : List String) (r : Reconciliator)
    (d : Bool) (s : RState) (rn ts : String) (h : C3P tk rk s) :
    C3P tk rk (r.UpdateRepositoryRemoveTeamAccess d s rn ts) := by
  refine C3P_mstep tk rk s _ _ ?_ ?_ h
  · intro m hm
    exact applyMirrorOp_keysPres_single tk rk m _ (by intro ts2; simp) (by intro rn2; simp) hm
  · exact fwd_not_destructive r d _ (by simp [DestructiveOp])

theorem C3P_UpdateRepositorySetExternalUser (tk rk : List String) (r : Reconciliator)
    (d : Bool) (s : RState) (rn cid perm : String) (h : C3P tk rk s) :
    C3P tk rk (r.UpdateRepositorySetExternalUser d s rn cid perm) := by
  refine C3P_mstep tk rk s _ _ ?_ ?_ h
  · intro m hm
    exact applyMirrorOp_keysPres_single tk rk m _ (by intro ts; simp) (by intro rn2; simp) hm
  · exact fwd_not_destructive r d _ (by simp [DestructiveOp])

theorem C3P_UpdateRepositoryRemoveExternalUser (tk rk : List String) (r : Reconciliator)
    (d : Bool) (s : RState) (rn cid : String) (h : C3P tk rk s) :
    C3P tk rk (r.UpdateRepositoryRemoveExternalUser d s rn cid) := by
  refine C3P_mstep tk rk s _ _ ?_ ?_ h
  · intro m hm
    exact applyMirrorOp_keysPres_single tk rk m _ (by intro ts; simp) (by intro rn2; simp) hm
  · exact fwd_not_destructive r d _ (by simp [DestructiveOp])

theorem C3P_AddRuleset (tk rk : List String) (r : Reconciliator) (d : Bool)
    (s : RState) (rs : GithubRuleSet) (h : C3P tk rk s) :
    C3P tk rk (r.AddRuleset d s rs) := by
  refine C3P_mstep tk rk s _ _ ?_ ?_ h
  · intro m hm; exact hm
  · exact fwd_not_destructive r d _ (by simp [DestructiveOp])

theorem C3P_UpdateRuleset (tk rk : List String) (r : Reconciliator) (d : Bool)
    (s : RState) (rs : GithubRuleSet) (h : C3P tk rk s) :
    C3P tk rk (r.UpdateRuleset d s rs) := by
  refine C3P_mstep tk rk s _ _ ?_ ?_ h
  · intro m hm; exact hm
  · exact fwd_not_destructive r d _ (by simp [DestructiveOp])

theorem C3P_DeleteRuleset (tk rk : List String) (r : Reconciliator) (d : Bool)
    (s : RState) (rid : Nat)
    (hg : r.repoconfig.DestructiveOperations.AllowDestructiveRulesets = false)
    (h : C3P tk rk s) : C3P tk rk (r.DeleteRuleset d s rid) := by
  simp only [Reconciliator.DeleteRuleset, hg]
  simpa using h

theorem C3P_ite (tk rk : List String) (c : Prop) [Decidable c] (x y : RState)
    (hx : C3P tk rk x) (hy : C3P tk rk y) : C3P tk rk (if c then x else y) := by
  split <;> assumption

theorem C3P_repoChangedTeamsStage (tk rk : List String) (r : Reconciliator) (d : Bool)
    (rn perm : String) (toAdd toRemove : List String) (s : RState) (h : C3P tk rk s) :
    C3P tk rk (r.repoChangedTeamsStage d rn perm toAdd toRemove s) := by
  unfold Reconciliator.repoChangedTeamsStage
  refine foldl_preserves (fun st => C3P tk rk st) _
    (fun b a hb => C3P_UpdateRepositoryRemoveTeamAccess tk rk r d b rn a hb) _ _
    (foldl_preserves (fun st => C3P tk rk st) _
      (fun b a hb => C3P_UpdateRepositoryAddTeamAccess tk rk r d b rn a perm hb) _ _ h)

theorem C3P_repoChangedExtStage (tk rk : List String) (r : Reconciliator) (d : Bool)
    (rn perm : String) (toRemove toAdd skipList : List String) (s : RState)
    (h : C3P tk rk s) :
    C3P tk rk (r.repoChangedExtStage d rn perm toRemove toAdd skipList s) := by
  unfold Reconciliator.repoChangedExtStage
  refine foldl_preserves (fun st => C3P tk rk st) _
    (fun b a hb => C3P_UpdateRepositorySetExternalUser tk rk r d b rn a perm hb) _ _
    (foldl_preserves (fun st => C3P tk rk st) _ ?_ _ _ h)
  intro b a hb
  by_cases hc : skipList.contains a = true
  · rw [if_pos hc]; exact hb
  · rw [if_neg hc]
    exact C3P_UpdateRepositoryRemoveExternalUser tk rk r d b rn a hb

set_option maxRecDepth 8192 in
theorem C3P_repoOnChanged (tk rk : List String) (r : Reconciliator) (d : Bool)
    (s : RState) (rn : String) (l rr : GithubRepoComparable) (h : C3P tk rk s) :
    C3P tk rk (r.repoOnChanged d s rn l rr) := by
  unfold Reconciliator.repoOnChanged
  repeat
    first
    | exact h
    | assumption
    | apply C3P_ite tk rk
    | apply C3P_repoChangedTeamsStage tk rk
    | apply C3P_repoChangedExtStage tk rk
    | apply C3P_UpdateRepositoryUpdatePrivate tk rk
    | apply C3P_UpdateRepositoryUpdateArchived tk rk

theorem C3P_usersPassState (tk rk : List String) (r : Reconciliator) (lcl : GoliacLocal)
    (d : Bool) (s : RState)
    (hgU : r.repoconfig.DestructiveOperations.AllowDestructiveUsers = false)
    (h : C3P tk rk s) : C3P tk rk (r.usersPassState lcl d s) := by
  unfold Reconciliator.usersPassState
  refine foldl_preserves (fun st => C3P tk rk st) _
    (fun b a hb => C3P_RemoveUserFromOrg tk rk r d b a.2 hgU hb) _ _ ?_
  refine foldl_preserves
    (fun pr : RState × List (String × String) => C3P tk rk pr.1) _ ?_ lcl.users _ h
  intro b a hb
  unfold Reconciliator.usersAddStep
  rcases halo : alookup a.2.GithubID b.2 with _ | user
  · simp only [halo]
    exact C3P_AddUserToOrg tk rk r d b.1 "" hb
  · simp only [halo]
    exact hb

theorem C3P_teamsPassState (tk rk : List String) (r : Reconciliator) (lcl : GoliacLocal)
    (d : Bool) (s : RState)
    (hgT : r.repoconfig.DestructiveOperations.AllowDestructiveTeams = false)
    (h : C3P tk rk s) : C3P tk rk (r.teamsPassState lcl d s) := by
  simp only [Reconciliator.teamsPassState]
  refine CompareEntities_preserves (fun st => C3P tk rk st) _ _ _ _ _ _ ?_ ?_ ?_ s h
  · intro st k v hst
    exact C3P_CreateTeam tk rk r d st v.Slug v.Name _ hst
  · intro st k v hst
    exact C3P_DeleteTeam tk rk r d st v.Slug hgT hst
  · intro st k v w hst
    unfold Reconciliator.teamsOnChanged
    refine foldl_preserves (fun s2 => C3P tk rk s2) _
      (fun b a hb => C3P_UpdateTeamAddMember tk rk r d b k a "member" hb) _ _ ?_
    refine foldl_preserves (fun pr : RState × List String => C3P tk rk pr.1) _ ?_ _ _ hst
    intro b a hb
    unfold Reconciliator.teamsMemberStep
    by_cases hc : b.2.contains a = true
    · rw [if_pos hc]; exact hb
    · rw [if_neg hc]
      exact C3P_UpdateTeamRemoveMember tk rk r d b.1 k a hb

theorem C3P_reposPassState (tk rk : List String) (r : Reconciliator) (lcl : GoliacLocal)
    (trn : String) (d : Bool) (s : RState)
    (hgR : r.repoconfig.DestructiveOperations.AllowDestructiveRepositories = false)
    (h : C3P tk rk s) : C3P tk rk (r.reposPassState lcl trn d s) := by
  simp only [Reconciliator.reposPassState]
  refine CompareEntities_preserves (fun st => C3P tk rk st) _ _ _ _ _ _ ?_ ?_ ?_ s h
  · intro st k v hst
    exact C3P_CreateRepository tk rk r d st k k _ _ _ hst
  · intro st k v hst
    exact C3P_DeleteRepository tk rk r d st k hgR hst
  · intro st k v w hst
    exact C3P_repoOnChanged tk rk r d st k v w hst

/-- The final state of a reconciliation, spelled as the pass compositions
(the first three passes never fail, so their matches reduce). -/
theorem Reconciliate_state (r : Reconciliator) (lcl : GoliacLocal) (remote : GoliacRemote)
    (trn : String) (d : Bool) :
    (r.Reconciliate lcl remote trn d).state
      = (if remote.enterprise then
          (r.reconciliateRulesets lcl r.repoconfig d
            (r.reposPassState lcl trn d (r.teamsPassState lcl d
              (r.usersPassState lcl d ⟨remote, [], []⟩)))).1
         else
          r.reposPassState lcl trn d (r.teamsPassState lcl d
            (r.usersPassState lcl d ⟨remote, [], []⟩))) := by
  by_cases he : remote.enterprise = true
  · rcases hb : r.buildLgrs lcl [] r.repoconfig.Rulesets with e | lg <;>
      simp [Reconciliator.Reconciliate, Reconciliator.reconciliateUsers,
        Reconciliator.reconciliateTeams, Reconciliator.reconciliateRepositories,
        Reconciliator.reconciliateRulesets, he, hb]
  · rw [Bool.not_eq_true] at he
    simp [Reconciliator.Reconciliate, Reconciliator.reconciliateUsers,
      Reconciliator.reconciliateTeams, Reconciliator.reconciliateRepositories, he]

/-- C3 (amended): with every destructive gate off, no destructive operation
(`RemoveUserFromOrg`, `DeleteTeam`, `DeleteRepository`, `DeleteRuleset`) is
forwarded to the Executor over the whole run, and the mirror retains every
live team and repository key.  (Users are NOT retained — see the
counterexample: `RemoveUserFromOrg` updates the mirror even when gated.) -/
theorem C3_policy_gating (r : Reconciliator) (lcl : GoliacLocal) (remote : GoliacRemote)
    (trn : String) (d : Bool)
    (hg : r.repoconfig.DestructiveOperations = ⟨false, false, false, false⟩) :
    (∀ c ∈ (r.Reconciliate lcl remote trn d).state.execCalls, ¬ DestructiveOp c.op) ∧
    (∀ t ∈ akeys remote.teams,
      t ∈ akeys (r.Reconciliate lcl remote trn d).state.mirror.teams) ∧
    (∀ q ∈ akeys remote.repositories,
      q ∈ akeys (r.Reconciliate lcl remote trn d).state.mirror.repositories) := by
  have hgU : r.repoconfig.DestructiveOperations.AllowDestructiveUsers = false := by rw [hg]
  have hgT : r.repoconfig.DestructiveOperations.AllowDestructiveTeams = false := by rw [hg]
  have hgRepo : r.repoconfig.DestructiveOperations.AllowDestructiveRepositories = false := by
    rw [hg]
  have hgRS : r.repoconfig.DestructiveOperations.AllowDestructiveRulesets = false := by
    rw [hg]
  have h0 : C3P (akeys remote.teams) (akeys remote.repositories) ⟨remote, [], []⟩ :=
    ⟨fun c hc => absurd hc (List.not_mem_nil c), fun t ht => ht, fun q hq => hq⟩
  have h1 := C3P_usersPassState _ _ r lcl d _ hgU h0
  have h2 := C3P_teamsPassState _ _ r lcl d _ hgT h1
  have h3 := C3P_reposPassState _ _ r lcl trn d _ hgRepo h2
  have hfinal : C3P (akeys remote.teams) (akeys remote.repositories)
      (r.Reconciliate lcl remote trn d).state := by
    rw [Reconciliate_state]
    by_cases he : remote.enterprise = true
    · rw [if_pos he]
      rcases hb : r.buildLgrs lcl [] r.repoconfig.Rulesets with e | lg
      · simp only [Reconciliator.reconciliateRulesets, hb]
        exact h3
      · simp only [Reconciliator.reconciliateRulesets, hb]
        refine CompareEntities_preserves (fun st => C3P _ _ st) _ _ _ _ _ _ ?_ ?_ ?_ _ h3
        · intro st k v hst
          exact C3P_AddRuleset _ _ r d st v hst
        · intro st k v hst
          exact C3P_DeleteRuleset _ _ r d st v.Id hgRS hst
        · intro st k v w hst
          exact C3P_UpdateRuleset _ _ r d st _ hst
    · rw [if_neg he]
      exact h3
  exact ⟨hfinal.1, hfinal.2.1, hfinal.2.2⟩

/-- Live state with an undeclared team `ghost` and an undeclared repository
`legacy` (non-enterprise). -/
def remoteGhost : GoliacRemote :=
  ⟨[], [("ghost", ⟨"ghost", "ghost", []⟩)], [("legacy", ⟨true, false, []⟩)], [], [], false⟩

/-- Witness for `C3_policy_gating`: live team `ghost` and repository
`legacy` with empty declared state and gates off — nothing destructive is
forwarded; the mirror still has both keys. -/
theorem C3_policy_gating_witness :
    recGatesOff.repoconfig.DestructiveOperations = ⟨false, false, false, false⟩ ∧
    (∀ c ∈ (recGatesOff.Reconciliate lclEmpty remoteGhost "teams" false).state.execCalls,
      ¬ DestructiveOp c.op) ∧
    "ghost" ∈
      akeys (recGatesOff.Reconciliate lclEmpty remoteGhost "teams" false).state.mirror.teams ∧
    "legacy" ∈
      akeys (recGatesOff.Reconciliate lclEmpty remoteGhost
        "teams" false).state.mirror.repositories := by
  have h := C3_policy_gating recGatesOff lclEmpty remoteGhost "teams" false rfl
  exact ⟨rfl, h.1, h.2.1 "ghost" (by decide), h.2.2 "legacy" (by decide)⟩

/-! ## Dry-run purity (C7)

`dryrun` is only ever threaded verbatim into the forwarded executor calls;
no branch of the engine inspects it.  We prove it by relating a run with
flag `d` to the baseline run with flag `false`: mirrors and mirror-op
sequences coincide, and the executor calls differ only in the flag. -/

/-- The d-run state versus the baseline (false) run state: same mirror,
same mirror mutation sequence, and executor calls equal up to the flag. -/
def DRel (d : Bool) (s s' : RState) : Prop :=
  s.mirror = s'.mirror ∧ s.mirrorOps = s'.mirrorOps ∧
  s.execCalls = s'.execCalls.map (fun c => ⟨d, c.op⟩)

theorem fwd_relabel (r : Reconciliator) (d : Bool) (op : Op) :
    r.fwd d op = (r.fwd false op).map (fun c => (⟨d, c.op⟩ : ExecCall)) := by
  unfold Reconciliator.fwd
  split <;> simp

theorem DRel_mstep (d : Bool) (s s' : RState) (mOps : List Op) (eC eC' : List ExecCall)
    (he : eC = eC'.map (fun c => ⟨d, c.op⟩)) (h : DRel d s s') :
    DRel d (mstep s mOps eC) (mstep s' mOps eC') := by
  unfold mstep DRel
  refine ⟨by rw [h.1], by rw [h.2.1], ?_⟩
  rw [List.map_append, ← he, h.2.2]

theorem DRel_ite (d : Bool) (c : Prop) [Decidable c] (x y x' y' : RState)
    (hx : DRel d x x') (hy : DRel d y y') :
    DRel d (if c then x else y) (if c then x' else y') := by
  split <;> assumption

theorem DRel_AddUserToOrg (r : Reconciliator) (d : Bool) (s s' : RState) (id : String)
    (h : DRel d s s') : DRel d (r.AddUserToOrg d s id) (r.AddUserToOrg false s' id) :=
  DRel_mstep d s s' _ _ _ (fwd_relabel r d _) h

theorem DRel_RemoveUserFromOrg (r : Reconciliator) (d : Bool) (s s' : RState) (id : String)
    (h : DRel d s s') :
    DRel d (r.RemoveUserFromOrg d s id) (r.RemoveUserFromOrg false s' id) := by
  refine DRel_mstep d s s' _ _ _ ?_ h
  split
  · exact fwd_relabel r d _
  · rfl

theorem DRel_CreateTeam (r : Reconciliator) (d : Bool) (s s' : RState)
    (tn desc : String) (members : List String) (h : DRel d s s') :
    DRel d (r.CreateTeam d s tn desc members) (r.CreateTeam false s' tn desc members) :=
  DRel_mstep d s s' _ _ _ (fwd_relabel r d _) h

theorem DRel_DeleteTeam (r : Reconciliator) (d : Bool) (s s' : RState) (ts : String)
    (h : DRel d s s') : DRel d (r.DeleteTeam d s ts) (r.DeleteTeam false s' ts) := by
  unfold Reconciliator.DeleteTeam
  exact DRel_ite d _ _ _ _ _ (DRel_mstep d s s' _ _ _ (fwd_relabel r d _) h) h

theorem DRel_UpdateTeamAddMember (r : Reconciliator) (d : Bool) (s s' : RState)
    (ts user role : String) (h : DRel d s s') :
    DRel d (r.UpdateTeamAddMember d s ts user role)
      (r.UpdateTeamAddMember false s' ts user role) :=
  DRel_mstep d s s' _ _ _ (fwd_relabel r d _) h

theorem DRel_UpdateTeamRemoveMember (r : Reconciliator) (d : Bool) (s s' : RState)
    (ts user : String) (h : DRel d s s') :
    DRel d (r.UpdateTeamRemoveMember d s ts user)
      (r.UpdateTeamRemoveMember false s' ts user) :=
  DRel_mstep d s s' _ _ _ (fwd_relabel r d _) h

theorem DRel_CreateRepository (r : Reconciliator) (d : Bool) (s s' : RState)
    (rn desc : String) (ws rs : List String) (pub : Bool) (h : DRel d s s') :
    DRel d (r.CreateRepository d s rn desc ws rs pub)
      (r.CreateRepository false s' rn desc ws rs pub) :=
  DRel_mstep d s s' _ _ _ (fwd_relabel r d _) h

theorem DRel_DeleteRepository (r : Reconciliator) (d : Bool) (s s' : RState) (rn : String)
    (h : DRel d s s') :
    DRel d (r.DeleteRepository d s rn) (r.DeleteRepository false s' rn) := by
  unfold Reconciliator.DeleteRepository
  exact DRel_ite d _ _ _ _ _ (DRel_mstep d s s' _ _ _ (fwd_relabel r d _) h) h

theorem DRel_UpdateRepositoryUpdatePrivate (r : Reconciliator) (d : Bool) (s s' : RState)
    (rn : String) (b : Bool) (h : DRel d s s') :
    DRel d (r.UpdateRepositoryUpdatePrivate d s rn b)
      (r.UpdateRepositoryUpdatePrivate false s' rn b) :=
  DRel_mstep d s s' _ _ _ (fwd_relabel r d _) h

theorem DRel_UpdateRepositoryUpdateArchived (r : Reconciliator) (d : Bool) (s s' : RState)
    (rn : String) (b : Bool) (h : DRel d s s') :
    DRel d (r.UpdateRepositoryUpdateArchived d s rn b)
      (r.UpdateRepositoryUpdateArchived false s' rn b) :=
  DRel_mstep d s s' _ _ _ (fwd_relabel r d _) h

theorem DRel_UpdateRepositoryAddTeamAccess (r : Reconciliator) (d : Bool) (s s' : RState)
    (rn ts perm : String) (h : DRel d s s') :
    DRel d (r.UpdateRepositoryAddTeamAccess d s rn ts perm)
      (r.UpdateRepositoryAddTeamAccess false s' rn ts perm) :=
  DRel_mstep d s s' _ _ _ (fwd_relabel r d _) h

theorem DRel_UpdateRepositoryRemoveTeamAccess (r : Reconciliator) (d : Bool)
    (s s' : RState) (rn ts : String) (h : DRel d s s') :
    DRel d (r.UpdateRepositoryRemoveTeamAccess d s rn ts)
      (r.UpdateRepositoryRemoveTeamAccess false s' rn ts) :=
  DRel_mstep d s s' _ _ _ (fwd_relabel r d _) h

theorem DRel_UpdateRepositorySetExternalUser (r : Reconciliator) (d : Bool)
    (s s' : RState) (rn cid perm : String) (h : DRel d s s') :
    DRel d (r.UpdateRepositorySetExternalUser d s rn cid perm)
      (r.UpdateRepositorySetExternalUser false s' rn cid perm) :=
  DRel_mstep d s s' _ _ _ (fwd_relabel r d _) h

theorem DRel_UpdateRepositoryRemoveExternalUser (r : Reconciliator) (d : Bool)
    (s s' : RState) (rn cid : String) (h : DRel d s s') :
    DRel d (r.UpdateRepositoryRemoveExternalUser d s rn cid)
      (r.UpdateRepositoryRemoveExternalUser false s' rn cid) :=
  DRel_mstep d s s' _ _ _ (fwd_relabel r d _) h

theorem DRel_AddRuleset (r : Reconciliator) (d : Bool) (s s' : RState)
    (rs : GithubRuleSet) (h : DRel d s s') :
    DRel d (r.AddRuleset d s rs) (r.AddRuleset false s' rs) :=
  DRel_mstep d s s' _ _ _ (fwd_relabel r d _) h

theorem DRel_UpdateRuleset (r : Reconciliator) (d : Bool) (s s' : RState)
    (rs : GithubRuleSet) (h : DRel d s s') :
    DRel d (r.UpdateRuleset d s rs) (r.UpdateRuleset false s' rs) :=
  DRel_mstep d s s' _ _ _ (fwd_relabel r d _) h

theorem DRel_DeleteRuleset (r : Reconciliator) (d : Bool) (s s' : RState) (rid : Nat)
    (h : DRel d s s') : DRel d (r.DeleteRuleset d s rid) (r.DeleteRuleset false s' rid) := by
  unfold Reconciliator.DeleteRuleset
  exact DRel_ite d _ _ _ _ _ (DRel_mstep d s s' _ _ _ (fwd_relabel r d _) h) h

theorem DRel_repoChangedTeamsStage (r : Reconciliator) (d : Bool) (rn perm : String)
    (toAdd toRemove : List String) (s s' : RState) (h : DRel d s s') :
    DRel d (r.repoChangedTeamsStage d rn perm toAdd toRemove s)
      (r.repoChangedTeamsStage false rn perm toAdd toRemove s') := by
  unfold Reconciliator.repoChangedTeamsStage
  refine foldl_rel (DRel d) _ _
    (fun b c a hbc => DRel_UpdateRepositoryRemoveTeamAccess r d b c rn a hbc) toRemove _ _
    (foldl_rel (DRel d) _ _
      (fun b c a hbc => DRel_UpdateRepositoryAddTeamAccess r d b c rn a perm hbc)
      toAdd _ _ h)

theorem DRel_repoChangedExtStage (r : Reconciliator) (d : Bool) (rn perm : String)
    (toRemove toAdd skipList : List String) (s s' : RState) (h : DRel d s s') :
    DRel d (r.repoChangedExtStage d rn perm toRemove toAdd skipList s)
      (r.repoChangedExtStage false rn perm toRemove toAdd skipList s') := by
  unfold Reconciliator.repoChangedExtStage
  refine foldl_rel (DRel d) _ _
    (fun b c a hbc => DRel_UpdateRepositorySetExternalUser r d b c rn a perm hbc) toAdd _ _
    (foldl_rel (DRel d) _ _ ?_ toRemove _ _ h)
  intro b c a hbc
  by_cases hc : skipList.contains a = true
  · rw [if_pos hc, if_pos hc]; exact hbc
  · rw [if_neg hc, if_neg hc]
    exact DRel_UpdateRepositoryRemoveExternalUser r d b c rn a hbc

set_option maxRecDepth 8192 in
theorem DRel_repoOnChanged (r : Reconciliator) (d : Bool) (s s' : RState) (rn : String)
    (l rr : GithubRepoComparable) (h : DRel d s s') :
    DRel d (r.repoOnChanged d s rn l rr) (r.repoOnChanged false s' rn l rr) := by
  unfold Reconciliator.repoOnChanged
  repeat
    first
    | exact h
    | assumption
    | apply DRel_ite d
    | apply DRel_repoChangedTeamsStage r d
    | apply DRel_repoChangedExtStage r d
    | apply DRel_UpdateRepositoryUpdatePrivate r d
    | apply DRel_UpdateRepositoryUpdateArchived r d

theorem DRel_usersAddStep (r : Reconciliator) (d : Bool)
    (b c : RState × List (String × String)) (a : String × User)
    (hbc : DRel d b.1 c.1 ∧ b.2 = c.2) :
    DRel d (r.usersAddStep d b a).1 (r.usersAddStep false c a).1 ∧
      (r.usersAddStep d b a).2 = (r.usersAddStep false c a).2 := by
  unfold Reconciliator.usersAddStep
  rcases halo : alookup a.2.GithubID b.2 with _ | user
  · have halo2 : alookup a.2.GithubID c.2 = none := by rw [← hbc.2]; exact halo
    simp only [halo, halo2]
    exact ⟨DRel_AddUserToOrg r d b.1 c.1 "" hbc.1, hbc.2⟩
  · have halo2 : alookup a.2.GithubID c.2 = some user := by rw [← hbc.2]; exact halo
    simp only [halo, halo2]
    exact ⟨hbc.1, by rw [hbc.2]⟩

theorem DRel_usersPassState (r : Reconciliator) (lcl : GoliacLocal) (d : Bool)
    (s s' : RState) (h : DRel d s s') :
    DRel d (r.usersPassState lcl d s) (r.usersPassState lcl false s') := by
  simp only [Reconciliator.usersPassState]
  rw [h.1]
  obtain ⟨hf1, hf2⟩ := foldl_rel
    (fun (a b : RState × List (String × String)) => DRel d a.1 b.1 ∧ a.2 = b.2)
    (r.usersAddStep d) (r.usersAddStep false)
    (fun b c a hbc => DRel_usersAddStep r d b c a hbc)
    lcl.users (s, s'.mirror.users.map (fun u => (u, u)))
    (s', s'.mirror.users.map (fun u => (u, u))) ⟨h, rfl⟩
  rw [hf2]
  exact foldl_rel (DRel d) _ _
    (fun b c a hbc => DRel_RemoveUserFromOrg r d b c a.2 hbc) _ _ _ hf1

theorem DRel_teamsMemberStep (r : Reconciliator) (d : Bool) (k : String)
    (b c : RState × List String) (a : String)
    (hbc : DRel d b.1 c.1 ∧ b.2 = c.2) :
    DRel d (r.teamsMemberStep d k b a).1 (r.teamsMemberStep false k c a).1 ∧
      (r.teamsMemberStep d k b a).2 = (r.teamsMemberStep false k c a).2 := by
  unfold Reconciliator.teamsMemberStep
  by_cases hc2 : b.2.contains a = true
  · have hc3 : c.2.contains a = true := by rw [← hbc.2]; exact hc2
    rw [if_pos hc2, if_pos hc3]
    exact ⟨hbc.1, by rw [hbc.2]⟩
  · have hc3 : ¬ c.2.contains a = true := by rw [← hbc.2]; exact hc2
    rw [if_neg hc2, if_neg hc3]
    exact ⟨DRel_UpdateTeamRemoveMember r d b.1 c.1 k a hbc.1, hbc.2⟩

theorem DRel_teamsOnChanged (r : Reconciliator) (lcl : GoliacLocal) (d : Bool)
    (st st' : RState) (k : String) (v w : GithubTeam) (hst : DRel d st st') :
    DRel d (r.teamsOnChanged lcl d st k v w) (r.teamsOnChanged lcl false st' k v w) := by
  simp only [Reconciliator.teamsOnChanged]
  obtain ⟨hf1, hf2⟩ := foldl_rel
    (fun (a b : RState × List String) => DRel d a.1 b.1 ∧ a.2 = b.2)
    (r.teamsMemberStep d k) (r.teamsMemberStep false k)
    (fun b c a hbc => DRel_teamsMemberStep r d k b c a hbc)
    w.Members (st, localMembersOf lcl v) (st', localMembersOf lcl v) ⟨hst, rfl⟩
  rw [hf2]
  exact foldl_rel (DRel d) _ _
    (fun b c a hbc => DRel_UpdateTeamAddMember r d b c k a "member" hbc) _ _ _ hf1

theorem DRel_teamsPassState (r : Reconciliator) (lcl : GoliacLocal) (d : Bool)
    (s s' : RState) (h : DRel d s s') :
    DRel d (r.teamsPassState lcl d s) (r.teamsPassState lcl false s') := by
  unfold Reconciliator.teamsPassState
  rw [h.1]
  refine CompareEntities_rel (DRel d) _ _ _ _ _ _ _ _ _ ?_ ?_ ?_ s s' h
  · intro a b k v hab
    exact DRel_CreateTeam r d a b v.Slug v.Name _ hab
  · intro a b k v hab
    exact DRel_DeleteTeam r d a b v.Slug hab
  · intro a b k v w hab
    exact DRel_teamsOnChanged r lcl d a b k v w hab

theorem DRel_reposPassState (r : Reconciliator) (lcl : GoliacLocal) (trn : String)
    (d : Bool) (s s' : RState) (h : DRel d s s') :
    DRel d (r.reposPassState lcl trn d s) (r.reposPassState lcl trn false s') := by
  unfold Reconciliator.reposPassState
  rw [h.1]
  refine CompareEntities_rel (DRel d) _ _ _ _ _ _ _ _ _ ?_ ?_ ?_ s s' h
  · intro a b k v hab
    exact DRel_CreateRepository r d a b k k _ _ _ hab
  · intro a b k v hab
    exact DRel_DeleteRepository r d a b k hab
  · intro a b k v w hab
    exact DRel_repoOnChanged r d a b k v w hab

/-- C7 (confirmed): dry-run purity.  Every executor call of a run carries
exactly the `dryrun` flag the reconciliation was started with; the mirror
and the sequence of mirror mutations are identical to the baseline
(`dryrun=false`) run; the executor call sequences agree up to the flag. -/
theorem C7_dryrun_purity (r : Reconciliator) (lcl : GoliacLocal) (remote : GoliacRemote)
    (trn : String) (d : Bool) :
    (∀ c ∈ (r.Reconciliate lcl remote trn d).state.execCalls, c.dryrun = d) ∧
    (r.Reconciliate lcl remote trn d).state.mirror
      = (r.Reconciliate lcl remote trn false).state.mirror ∧
    (r.Reconciliate lcl remote trn d).state.mirrorOps
      = (r.Reconciliate lcl remote trn false).state.mirrorOps ∧
    (r.Reconciliate lcl remote trn d).state.execCalls
      = ((r.Reconciliate lcl remote trn false).state.execCalls).map
          (fun c => ⟨d, c.op⟩) := by
  have hrel : DRel d (r.Reconciliate lcl remote trn d).state
      (r.Reconciliate lcl remote trn false).state := by
    rw [Reconciliate_state, Reconciliate_state]
    have h0 : DRel d (⟨remote, [], []⟩ : RState) ⟨remote, [], []⟩ := ⟨rfl, rfl, by simp⟩
    have h1 := DRel_usersPassState r lcl d _ _ h0
    have h2 := DRel_teamsPassState r lcl d _ _ h1
    have h3 := DRel_reposPassState r lcl trn d _ _ h2
    by_cases he : remote.enterprise = true
    · rw [if_pos he, if_pos he]
      rcases hb : r.buildLgrs lcl [] r.repoconfig.Rulesets with e | lg
      · simp only [Reconciliator.reconciliateRulesets, hb]
        exact h3
      · simp only [Reconciliator.reconciliateRulesets, hb]
        rw [h3.1]
        refine CompareEntities_rel (DRel d) _ _ _ _ _ _ _ _ _ ?_ ?_ ?_ _ _ h3
        · intro a b k v hab
          exact DRel_AddRuleset r d a b v hab
        · intro a b k v hab
          exact DRel_DeleteRuleset r d a b v.Id hab
        · intro a b k v w hab
          exact DRel_UpdateRuleset r d a b _ hab
    · rw [if_neg he, if_neg he]
      exact h3
  refine ⟨?_, hrel.1, hrel.2.1, hrel.2.2⟩
  intro c hc
  rw [hrel.2.2] at hc
  rcases List.mem_map.mp hc with ⟨c0, _, hceq⟩
  rw [← hceq]

/-- Witness for `C7_dryrun_purity` at a concrete input with `dryrun=true`. -/
theorem C7_dryrun_purity_witness :
    (∀ c ∈ (recGatesOn.Reconciliate lclAlice remoteEmpty "teams" true).state.execCalls,
      c.dryrun = true) ∧
    (recGatesOn.Reconciliate lclAlice remoteEmpty "teams" true).state.mirror
      = (recGatesOn.Reconciliate lclAlice remoteEmpty "teams" false).state.mirror ∧
    (recGatesOn.Reconciliate lclAlice remoteEmpty "teams" true).state.mirrorOps
      = (recGatesOn.Reconciliate lclAlice remoteEmpty "teams" false).state.mirrorOps ∧
    (recGatesOn.Reconciliate lclAlice remoteEmpty "teams" true).state.execCalls
      = ((recGatesOn.Reconciliate lclAlice remoteEmpty "teams" false).state.execCalls).map
          (fun c => ⟨true, c.op⟩) :=
  C7_dryrun_purity recGatesOn lclAlice remoteEmpty "teams" true

/-- A plain declared repository. -/
def repoPlain : Repository := ⟨true, false, [], [], [], [], none⟩

/-- Witness for `C10_ruleset_unanchored_match`: the literal (anchored-core)
pattern `"svc-"` selects the repository `"my-svc-x"` because it matches in
the middle of the slug. -/
theorem C10_ruleset_unanchored_match_witness :
    goMatch (fun t => t == "svc-".toList) (slugMake "my-svc-x") = true ∧
    slugMake "my-svc-x" ∈
      rulesetRepositories (fun t => t == "svc-".toList) [("my-svc-x", repoPlain)] := by
  refine ⟨by decide, ?_⟩
  exact (C10_ruleset_unanchored_match (fun t => t == "svc-".toList)
    [("my-svc-x", repoPlain)] "my-svc-x" repoPlain (by simp)).mpr (by decide)

end Goliac
